import Mathlib

/-!
Verification of `src/backend/document_processing.py`.

This file gives a shallow embedding, in Lean 4, of the docx template engine of
the repository (placeholder substitution, section inference, schema building
and field application) and proves properties of its behaviour.

Modelling conventions, used throughout:

* A python-docx `Paragraph` is modelled as a list of runs together with its
  paragraph-level properties: the raw `w:pPr` xml blob, the raw `w:numPr` xml
  blob and the style name.  The xml blobs are kept as opaque strings: the code
  only ever captures them, tests them for truthiness and re-attaches them, so
  nothing is lost by not parsing them (`parse_xml` is modelled as always
  succeeding on a blob that was previously captured).
* `paragraph.text` is the concatenation of the run texts, exactly as in
  python-docx.
* Python strings are Lean `String`s; functions that the source uses
  (`str.strip`, `str.lower`, `str.split`, regular expressions) are implemented
  below as executable character-list scanners.  Python's notion of whitespace
  is modelled by `Char.isWhitespace`.
* Python `dict`s whose insertion order matters (`field_map`,
  `tables_by_section`) are modelled as association lists in insertion order;
  `dict.get(k, d)` becomes an `Option`-valued lookup with a default.
* Python scalars / lists / dicts travelling through `payload` values are
  modelled by the inductive type `PyVal`.
* `sorted(..., reverse=True)` (a stable sort) is modelled by a stable
  insertion sort; a stable sort's output is uniquely determined by the key and
  the input order, so this is extensionally the Python function.
* Loops of the source that walk an explicit index range are modelled by folds
  over the same index range; `while` loops that grow/shrink a list one row at
  a time are modelled by recursion on the number of iterations the loop
  performs.  Scanners whose recursion consumes a variable number of characters
  per step take an explicit fuel argument, always called with fuel at least
  the length of the input, so that every definition reduces inside the kernel.
-/

namespace DocProc

/-! ## Python string primitives -/

/-- Python whitespace test (`str.strip`, `\s`): modelled by `Char.isWhitespace`. -/
def pySpace (c : Char) : Bool := c.isWhitespace

/-- `str.strip()` on a character list. -/
def stripChars (l : List Char) : List Char :=
  ((l.dropWhile pySpace).reverse.dropWhile pySpace).reverse

/-- `str.strip()`. -/
def pyStrip (s : String) : String := String.mk (stripChars s.data)

/-- `str.lower()` (ASCII case fold, which is all the source feeds it). -/
def pyLower (s : String) : String := String.mk (s.data.map Char.toLower)

/-- Accumulating scanner behind `str.split()`: `acc` is the reversed current
word. -/
def splitWsAcc (acc : List Char) : List Char → List (List Char)
  | [] => if acc.isEmpty then [] else [acc.reverse]
  | c :: rest =>
    if pySpace c then
      if acc.isEmpty then splitWsAcc [] rest
      else acc.reverse :: splitWsAcc [] rest
    else splitWsAcc (c :: acc) rest

/-- `str.split()` with no argument: split on runs of whitespace, no empties. -/
def pySplitWsChars (l : List Char) : List (List Char) := splitWsAcc [] l

/-- `str.split()` as the number of whitespace-separated words. -/
def pySplitWs (s : String) : List String :=
  (pySplitWsChars s.data).map String.mk

/-- Python truthiness of an optional string (`None` and `""` are falsy). -/
def strTruthy : Option String → Bool
  | none => false
  | some s => s ≠ ""

/-- Substring test (`needle in haystack` on Python strings). -/
def strContains (haystack needle : String) : Bool :=
  decide (needle.data <:+: haystack.data)

/-! ## Decimal numerals

The source builds identifiers with f-strings such as `f"{candidate}_{counter}"`.
`toString : Nat → String` is the decimal numeral; we prove it injective, which
is what makes the id-uniquification `while` loop of `infer_sections` terminate
and its fuelled model below total. -/

/-- Value of a decimal digit character (partial inverse of `Nat.digitChar`). -/
def decDigitVal (c : Char) : Nat :=
  c.toNat - '0'.toNat

/-- Horner evaluation of a decimal digit string starting from accumulator `a`. -/
def decValFrom (a : Nat) (l : List Char) : Nat :=
  l.foldl (fun acc c => 10 * acc + decDigitVal c) a

structure RunFmt where
  bold : Option Bool := none
  italic : Option Bool := none
  underline : Option Bool := none
  font_name : Option String := none
  font_size_pt : Option ℚ := none
  font_color_rgb : Option String := none
  font_color_theme : Option String := none
  highlight_color : Option String := none
deriving DecidableEq

/-- The empty formatting dict `{}` (Python-falsy). -/
def RunFmt.isEmptyDict (f : RunFmt) : Bool :=
  f.bold.isNone && f.italic.isNone && f.underline.isNone && f.font_name.isNone
    && f.font_size_pt.isNone && f.font_color_rgb.isNone
    && f.font_color_theme.isNone && f.highlight_color.isNone

/-- A python-docx `Run`: its text plus the directly-set font attributes that
`capture_run_formatting` reads (absent attribute = inherited from style). -/
structure Run where
  text : String
  bold : Option Bool := none
  italic : Option Bool := none
  underline : Option Bool := none
  font_name : Option String := none
  font_size_pt : Option ℚ := none
  font_color_rgb : Option String := none
  font_color_theme : Option String := none
  highlight_color : Option String := none
deriving DecidableEq

/-- A python-docx `Paragraph`: runs, the raw `w:pPr` xml (minus numbering),
the raw `w:numPr` xml, and the style name. -/
structure Paragraph where
  runs : List Run
  ppr : Option String := none
  numpr : Option String := none
  styleName : String := "Normal"
deriving DecidableEq

/-- `paragraph.text`: concatenation of the run texts. -/
def Paragraph.text (p : Paragraph) : String :=
  String.join (p.runs.map Run.text)

structure Cell where
  paragraphs : List Paragraph
deriving DecidableEq

structure TableRow where
  cells : List Cell
deriving DecidableEq

/-- A table: its rows plus the grid column count (`len(table.columns)`),
which `add_row` uses for the shape of an appended row. -/
structure Table where
  rows : List TableRow
  gridCols : Nat
deriving DecidableEq

/-- The document: body paragraphs, tables, and header/footer paragraph lists
(one per docx section). -/
structure Doc where
  paragraphs : List Paragraph
  tables : List Table := []
  headers : List (List Paragraph) := []
  footers : List (List Paragraph) := []
deriving DecidableEq

/-! ## Python payload values -/

/-- A Python value as it appears in a generation payload. -/
inductive PyVal where
  | none
  | str (s : String)
  | int (n : Int)
  | bool (b : Bool)
  | list (xs : List PyVal)
  | dict (entries : List (String × PyVal))

/-- `isinstance(v, (dict, list))`: the values the inline-substitution pass
skips as structured. -/
def PyVal.isStructured : PyVal → Bool
  | .list _ => true
  | .dict _ => true
  | _ => false

mutual

/-- Python `str(v)` for the values the engine stringifies.  String escaping
inside list/dict reprs is not modelled (the claims never evaluate it there). -/
def PyVal.pyStr : PyVal → String
  | .none => "None"
  | .str s => s
  | .int n => toString n
  | .bool b => if b then "True" else "False"
  | .list xs => "[" ++ String.intercalate ", " (PyVal.pyReprList xs) ++ "]"
  | .dict _ => "\x7b...\x7d"

/-- Python `repr(v)` used when a list is stringified (escaping not modelled). -/
def PyVal.pyRepr : PyVal → String
  | .str s => "'" ++ s ++ "'"
  | .none => "None"
  | .int n => toString n
  | .bool b => if b then "True" else "False"
  | .list xs => "[" ++ String.intercalate ", " (PyVal.pyReprList xs) ++ "]"
  | .dict _ => "\x7b...\x7d"

/-- `repr` mapped over a list of values. -/
def PyVal.pyReprList : List PyVal → List String
  | [] => []
  | v :: vs => PyVal.pyRepr v :: PyVal.pyReprList vs

end

/-- `None` test on an optional payload value (`dict.get` misses give `none`). -/
def PyVal.isNone : PyVal → Bool
  | .none => true
  | _ => false

/-! ## Association lists: insertion-ordered Python dicts -/

/-- `d.get(k)` on an insertion-ordered dict. -/
def alGet {κ α : Type} [DecidableEq κ] (d : List (κ × α)) (k : κ) : Option α :=
  (d.find? (fun kv => kv.1 = k)).map (fun kv => kv.2)

/-- `k in d`. -/
def alContains {κ α : Type} [DecidableEq κ] (d : List (κ × α)) (k : κ) : Bool :=
  (alGet d k).isSome

/-- `d[k] = v`: overwrite in place when the key exists, else append. -/
def alInsert {κ α : Type} [DecidableEq κ] (d : List (κ × α)) (k : κ) (v : α) :
    List (κ × α) :=
  if alContains d k then d.map (fun kv => if kv.1 = k then (k, v) else kv)
  else d ++ [(k, v)]

/-! ## Stable sorting

`sorted(xs, key=f, reverse=True)` is Python's stable descending sort: it is
uniquely determined by key and input order, so the stable insertion sort below
is extensionally the Python builtin. -/

/-- Insert `x` before the first element whose key is `≤ key x` (stable
descending insertion). -/
def insertDescBy {α : Type} (key : α → Int) (x : α) : List α → List α
  | [] => [x]
  | y :: ys => if key y ≤ key x then x :: y :: ys else y :: insertDescBy key x ys

/-- `sorted(xs, key=key, reverse=True)`. -/
def pySortedDescBy {α : Type} (key : α → Int) : List α → List α
  | [] => []
  | x :: xs => insertDescBy key x (pySortedDescBy key xs)

/-! ## The regular expressions of the source, as character scanners

All the character classes involved (`\d`, a literal `.`, `\s`) are pairwise
disjoint, so the greedy deterministic scanners below are exactly the matching
relations of the regexes. -/

/-- The `[a-zA-Z0-9]` class. -/
def isAsciiAlnum (c : Char) : Bool := c.isAlpha || c.isDigit

/-- The placeholder identifier class `[a-zA-Z0-9_.-]`. -/
def isPlaceholderChar (c : Char) : Bool :=
  isAsciiAlnum c || c = '_' || c = '.' || c = '-'

/-- Tail matcher for the suffix regex fragment `(\.\d+)*\s+`.  Fuel-driven so
the kernel can evaluate it; callers pass fuel at least the input length, and
each step strictly consumes input. -/
def dotGroupsWsTail : Nat → List Char → Bool
  | 0, _ => false
  | _ + 1, [] => false
  | f + 1, c :: rest =>
    if pySpace c then true
    else if c = '.' then
      match rest with
      | [] => false
      | d :: rest2 =>
        if d.isDigit then dotGroupsWsTail f (rest2.dropWhile Char.isDigit)
        else false
    else false

/-- `TOP_LEVEL_HEADING_RE`: match of the anchored regex
`\d+(\.\d+)*\s+` against the start of `l`. -/
def matchTopLevelHeading (l : List Char) : Bool :=
  if (l.takeWhile Char.isDigit).isEmpty then false
  else dotGroupsWsTail l.length (l.dropWhile Char.isDigit)

/-- `SECTION_HEADING_LINE_RE`: match of `\d+(?:\.\d+)+\s+` (at least one
dotted group) against the start of `l`. -/
def matchSectionHeadingLine (l : List Char) : Bool :=
  if (l.takeWhile Char.isDigit).isEmpty then false
  else
    match l.dropWhile Char.isDigit with
    | '.' :: r =>
      if (r.takeWhile Char.isDigit).isEmpty then false
      else dotGroupsWsTail r.length (r.dropWhile Char.isDigit)
    | _ => false

/-- `SIMPLE_NUMBERED_LIST_RE`: match of `\d+[\.\)]\s+` at the start of `l`. -/
def matchSimpleNumberedList (l : List Char) : Bool :=
  if (l.takeWhile Char.isDigit).isEmpty then false
  else
    match l.dropWhile Char.isDigit with
    | c :: rest =>
      (c = '.' || c = ')') && (match rest with
        | d :: _ => pySpace d
        | [] => false)
    | [] => false

/-- `BULLET_PREFIX_CHARS`. -/
def bulletChars : List Char := ['•', '-', '*', '–', '—', '·']

/-! ## `slugify` -/

/-- `re.sub(r"[^a-zA-Z0-9]+", "_", ...)`: collapse each maximal run of
non-alphanumerics into a single underscore.  The flag records whether we are
inside such a run. -/
def collapseNonAlnum : Bool → List Char → List Char
  | _, [] => []
  | inRun, c :: rest =>
    if isAsciiAlnum c then c :: collapseNonAlnum false rest
    else if inRun then collapseNonAlnum true rest
    else '_' :: collapseNonAlnum true rest

/-- `str.strip("_")`. -/
def stripUnderscores (l : List Char) : List Char :=
  ((l.dropWhile (fun c => c = '_')).reverse.dropWhile (fun c => c = '_')).reverse

/-- `slugify(text)`. -/
def slugify (text : String) : String :=
  let collapsed := collapseNonAlnum false (pyLower (pyStrip text)).data
  let s := String.mk (stripUnderscores collapsed)
  if s = "" then "section" else s

/-! ## Markdown bold segmentation (`BOLD_MARKER_RE`) -/

/-- Split `l` as `pre ++ [c, c] ++ post` at the first occurrence of the
doubled delimiter; `none` when there is none. -/
def splitClose (c : Char) : List Char → Option (List Char × List Char)
  | [] => Option.none
  | [_] => Option.none
  | a :: b :: rest =>
    if a = c ∧ b = c then some ([], rest)
    else (splitClose c (b :: rest)).map (fun pq => (a :: pq.1, pq.2))

/-- Scanner for `(\*\*|__)(.+?)\1`: finds non-overlapping leftmost matches
with minimal inner text, exactly as `re.finditer`.  `acc` is the pending
literal chunk; fuel is at least the input length. -/
def mdGo : Nat → List Char → List Char → List (List Char × Bool)
  | 0, acc, l => if (acc ++ l).isEmpty then [] else [(acc ++ l, false)]
  | _ + 1, acc, [] => if acc.isEmpty then [] else [(acc, false)]
  | f + 1, acc, c1 :: rest =>
    if c1 = '*' ∨ c1 = '_' then
      match rest with
      | c2 :: rest2 =>
        if c2 = c1 then
          match rest2 with
          | a :: rest3 =>
            match splitClose c1 rest3 with
            | some (p, q) =>
              (if acc.isEmpty then [] else [(acc, false)])
                ++ (a :: p, true) :: mdGo f [] q
            | Option.none => mdGo f (acc ++ [c1]) rest
          | [] => mdGo f (acc ++ [c1]) rest
        else mdGo f (acc ++ [c1]) rest
      | [] => if (acc ++ [c1]).isEmpty then [] else [(acc ++ [c1], false)]
    else mdGo f (acc ++ [c1]) rest

/-- `_markdown_segments(text)`: list of `(text, bold)` segments. -/
def markdownSegments (text : String) : List (String × Bool) :=
  let segs := (mdGo text.data.length [] text.data).map
    (fun lb => (String.mk lb.1, lb.2))
  if segs.isEmpty then [(text, false)] else segs

/-! ## Run / paragraph formatting helpers -/

/-- `capture_run_formatting(paragraph)`: approximate formatting dict read off
the first run (empty dict when the paragraph has no runs). -/
def capture_run_formatting (p : Paragraph) : RunFmt :=
  match p.runs with
  | [] => {}
  | r :: _ =>
    { bold := r.bold
      italic := r.italic
      underline := r.underline
      font_name := if strTruthy r.font_name then r.font_name else Option.none
      font_size_pt :=
        match r.font_size_pt with
        | some q => if q ≠ 0 then some q else Option.none
        | Option.none => Option.none
      font_color_rgb := r.font_color_rgb
      font_color_theme := r.font_color_theme
      highlight_color := r.highlight_color }

/-- `apply_run_formatting(run, formatting)`. -/
def apply_run_formatting (r : Run) (formatting : Option RunFmt) : Run :=
  match formatting with
  | Option.none => r
  | some f =>
    if f.isEmptyDict then r
    else
      { r with
        bold := f.bold.or r.bold
        italic := f.italic.or r.italic
        underline := f.underline.or r.underline
        font_name := if strTruthy f.font_name then f.font_name else r.font_name
        font_size_pt := f.font_size_pt.or r.font_size_pt
        font_color_rgb :=
          if strTruthy f.font_color_rgb then f.font_color_rgb else r.font_color_rgb
        font_color_theme :=
          if strTruthy f.font_color_theme then f.font_color_theme
          else r.font_color_theme
        highlight_color :=
          if strTruthy f.highlight_color then f.highlight_color
          else r.highlight_color }

/-- `capture_paragraph_properties(paragraph)`: the raw `w:pPr` xml, if any. -/
def capture_paragraph_properties (p : Paragraph) : Option String := p.ppr

/-- `capture_list_properties(paragraph)`: the raw `w:numPr` xml, if any. -/
def capture_list_properties (p : Paragraph) : Option String := p.numpr

/-- `apply_paragraph_properties(paragraph, ppr_xml)` (a captured blob always
re-parses, so `parse_xml` is modelled as succeeding). -/
def apply_paragraph_properties (p : Paragraph) (x : Option String) : Paragraph :=
  if strTruthy x then { p with ppr := x } else p

/-- `apply_list_properties(paragraph, numpr_xml)`. -/
def apply_list_properties (p : Paragraph) (x : Option String) : Paragraph :=
  if strTruthy x then { p with numpr := x } else p

/-- `paragraph.add_run(text)` produces a run with no directly-set font
attributes. -/
def newRun (text : String) : Run := { text := text }

/-- `_apply_markdown_runs(paragraph, text, run_format)`: one run per nonempty
markdown segment, bold segments get `run.bold = True` after the format. -/
def apply_markdown_runs (p : Paragraph) (text : String) (run_format : Option RunFmt) :
    Paragraph :=
  { p with
    runs := p.runs ++ (markdownSegments text).filterMap (fun seg =>
      if seg.1 = "" then Option.none
      else
        let r := apply_run_formatting (newRun seg.1) run_format
        some (if seg.2 then { r with bold := some true } else r)) }

/-- `replace_paragraph_text(paragraph, text, run_format, ppr_xml, numpr_xml)`:
drop every child but `pPr`, lay down the markdown runs, reapply properties. -/
def replace_paragraph_text (p : Paragraph) (text : String)
    (run_format : Option RunFmt := Option.none)
    (ppr_xml : Option String := Option.none)
    (numpr_xml : Option String := Option.none) : Paragraph :=
  let rf := match run_format with
    | Option.none => some (capture_run_formatting p)
    | some f => some f
  let px := ppr_xml.or (capture_paragraph_properties p)
  let nx := numpr_xml.or (capture_list_properties p)
  let p1 : Paragraph := { p with runs := [] }
  let p2 := if text ≠ "" then apply_markdown_runs p1 text rf else p1
  let p3 := apply_paragraph_properties p2 px
  apply_list_properties p3 nx

/-- `insert_paragraph_after(paragraph, text, run_format, ppr_xml, numpr_xml)`:
the freshly built paragraph (its placement is handled at each call site). -/
def inserted_paragraph (text : String) (run_format : Option RunFmt)
    (ppr_xml numpr_xml : Option String) : Paragraph :=
  let p0 : Paragraph := { runs := [] }
  let p1 := apply_paragraph_properties p0 ppr_xml
  let p2 := apply_list_properties p1 numpr_xml
  if text ≠ "" then
    { p2 with runs := [apply_run_formatting (newRun text) run_format] }
  else p2

/-! ## Heading detection and section inference -/

/-- The style-name test of `looks_like_heading`: any of the tokens
`heading` / `title` / `subtitle` is a case-insensitive substring. -/
def styleIsHeadingLike (styleName : String) : Bool :=
  styleName ≠ "" &&
    (strContains (pyLower styleName) "heading"
      || strContains (pyLower styleName) "title"
      || strContains (pyLower styleName) "subtitle")

/-- `looks_like_heading(paragraph)`.  The float literals of the source are
modelled as the rationals they denote (`13.5` exactly; `0.7` up to the float
rounding of CPython, irrelevant to every ratio the claims exercise). -/
def looks_like_heading (p : Paragraph) : Bool :=
  let text := pyStrip p.text
  if text = "" then false
  else if styleIsHeadingLike p.styleName then true
  else if matchTopLevelHeading text.data then true
  else if (match text.data with
    | c :: _ => bulletChars.contains c
    | [] => false) then false
  else
    let boldShort : Bool :=
      if text.length ≤ 120 then
        match p.runs with
        | [] => false
        | r0 :: rs =>
          let runs := r0 :: rs
          let bold_runs := (runs.filter (fun r => r.bold = some true)).length
          if bold_runs ≠ 0 ∧ bold_runs ≥ max 1 (runs.length / 2) then true
          else decide (r0.bold = some true ∧ (pySplitWs text).length ≤ 8)
      else false
    if boldShort then true
    else
      let fontBig : Bool :=
        match p.runs with
        | [] => false
        | r0 :: _ =>
          match r0.font_size_pt with
          | some q => decide (q ≠ 0 ∧ (27 : ℚ) / 2 ≤ q)
          | Option.none => false
      if fontBig then true
      else
        let alpha := text.data.filter Char.isAlpha
        let upper := (alpha.filter Char.isUpper).length
        if alpha.length ≠ 0 ∧ 7 * alpha.length < 10 * upper
            ∧ (pySplitWs text).length ≤ 6 then true
        else decide (text.data.getLast? = some ':' ∧ (pySplitWs text).length ≤ 8)

/-- `is_top_level_numbered_heading(paragraph)`. -/
def is_top_level_numbered_heading (p : Paragraph) : Bool :=
  matchTopLevelHeading (pyStrip p.text).data

/-- Captured per-paragraph metadata (`infer_sections` collects it so that
replacements can preserve formatting and lists). -/
structure ParaMeta where
  index : Option Int := Option.none
  style : Option String := Option.none
  ppr_xml : Option String := Option.none
  numpr_xml : Option String := Option.none
  run_format : Option RunFmt := Option.none
deriving DecidableEq

/-- A section dict as built by `infer_sections` (`content_*`, `paragraphs`
and `default_text` are attached by the second pass, hence optional). -/
structure Section where
  id : String
  heading : String := ""
  heading_index : Option Int := Option.none
  content_start : Option Int := Option.none
  content_end : Option Int := Option.none
  paragraphs : List ParaMeta := []
  default_text : String := ""
deriving DecidableEq

def defaultSection : Section := { id := "" }

/-- The `while unique in seen_ids` loop: try `cand_2, cand_3, …`.  Decimal
numerals are pairwise distinct, so among the first `seen.length + 1`
candidates one is always fresh; the fuel never runs out (proved below). -/
def freshIdLoop (cand : String) (seen : List String) : Nat → Nat → String
  | 0, k => cand ++ "_" ++ toString k
  | fuel + 1, k =>
    let u := cand ++ "_" ++ toString k
    if u ∈ seen then freshIdLoop cand seen fuel (k + 1) else u

/-- Candidate id followed by the collision loop of `infer_sections`. -/
def uniquifyId (cand : String) (seen : List String) : String :=
  if cand ∈ seen then freshIdLoop cand seen (seen.length + 1) 2 else cand

/-- Is an enumerated paragraph kept as a heading, given the document-wide
numbered-mode flag? -/
def headingKeep (numbered_mode : Bool) (p : Paragraph) : Bool :=
  if numbered_mode then is_top_level_numbered_heading p
  else looks_like_heading p

/-- One iteration of the heading-selection loop of `infer_sections`: the
state carries the accumulated sections and `seen_ids`. -/
def headingStep (numbered_mode : Bool) (st : List Section × List String)
    (ip : Nat × Paragraph) : List Section × List String :=
  if headingKeep numbered_mode ip.2 then
    let heading_text := pyStrip ip.2.text
    let unique := uniquifyId (slugify heading_text) st.2
    (st.1 ++ [{ id := unique, heading := heading_text,
                heading_index := some (ip.1 : Int) }],
     st.2 ++ [unique])
  else st

/-- The heading-selection pass of `infer_sections`: one fold over the
enumerated paragraphs. -/
def inferHeadings (doc : Doc) : List Section :=
  (doc.paragraphs.enum.foldl
    (headingStep (doc.paragraphs.any is_top_level_numbered_heading))
    ([], [])).1

/-- Paragraph at body index `j` (all accesses of the source are in range). -/
def paragraphAt (doc : Doc) (j : Nat) : Paragraph :=
  doc.paragraphs.getD j { runs := [] }

/-- Is the body paragraph at index `j` blank after stripping? -/
def blankAt (doc : Doc) (j : Nat) : Bool :=
  pyStrip (paragraphAt doc j).text = ""

/-- The `while start < end and blank: start += 1` loop. -/
def skipBlankForward (doc : Doc) (start e : Nat) : Nat :=
  start + ((List.range' start (e - start)).takeWhile (blankAt doc)).length

/-- The `while end > start and blank(end-1): end -= 1` loop. -/
def skipBlankBackward (doc : Doc) (start e : Nat) : Nat :=
  e - (((List.range' start (e - start)).reverse.takeWhile (blankAt doc))).length

/-- Metadata captured for one in-section paragraph. -/
def paragraphMetaAt (doc : Doc) (pi : Nat) : ParaMeta :=
  let p := paragraphAt doc pi
  { index := some (pi : Int)
    style := some p.styleName
    ppr_xml := capture_paragraph_properties p
    numpr_xml := capture_list_properties p
    run_format := some (capture_run_formatting p) }

/-- `infer_sections(doc)`. -/
def infer_sections (doc : Doc) : List Section :=
  let sections := inferHeadings doc
  if sections.isEmpty then []
  else
    let total := doc.paragraphs.length
    let n := sections.length
    (List.range n).map (fun i =>
      let s := sections.getD i defaultSection
      let start0 := (s.heading_index.getD 0).toNat + 1
      let end0 := if i + 1 < n then
          ((sections.getD (i + 1) defaultSection).heading_index.getD 0).toNat
        else total
      let start := skipBlankForward doc start0 end0
      let e := skipBlankBackward doc start end0
      { s with
        content_start := some (start : Int)
        content_end := some (e : Int)
        paragraphs := (List.range' start (e - start)).map (paragraphMetaAt doc)
        default_text := String.intercalate "\n\n"
          (((List.range' start (e - start)).map
              (fun j => pyStrip (paragraphAt doc j).text)).filter (· ≠ "")) })

/-! ## Table summaries and the public schema (`build_schema`) -/

/-- One `cell_meta` entry `{row, col}`. -/
structure CellRef where
  row : Nat
  col : Nat
deriving DecidableEq

/-- A table summary dict as produced by `summarize_tables`. -/
structure TableSummary where
  table_index : Nat
  rows : List (List String) := []
  cell_meta : List (List CellRef) := []
  section_id : Option String := Option.none
  label : String := ""
deriving DecidableEq

/-- `clone_table_rows(rows)` (cells are already strings here, so the `str` /
`None` coercions of the source are identities). -/
def clone_table_rows (rows : List (List String)) : List (List String) :=
  rows.map (fun row => row.map (fun cell => cell))

/-- Python `str.capitalize()`. -/
def pyCapitalize (s : String) : String :=
  match s.data with
  | [] => ""
  | c :: rest => String.mk (c.toUpper :: rest.map Char.toLower)

/-- `friendly_label_from_name(name)`. -/
def friendly_label_from_name (name : String) : String :=
  let cleaned := name.data.map (fun c => if c = '_' ∨ c = '-' ∨ c = '.' then ' ' else c)
  let parts := (pySplitWsChars cleaned).map String.mk
  if parts.isEmpty then ""
  else String.intercalate " " (parts.map pyCapitalize)

/-- One checkbox option dict inside a `checkbox-group` field-map entry. -/
structure CheckOption where
  value : String
  paragraph_index : Option Int := Option.none
  style : Option String := Option.none
  text : Option String := Option.none
deriving DecidableEq

/-- A `field_map` value.  The Python value is a plain dict; every key any
consumer reads (`.get`) is a field here, absent keys being `none` / `[]`.
The dict key `"end"` is the field `endPos`, and `"section"` is `sectionF`
(`end` and `section` are Lean keywords). -/
structure FieldMeta where
  type : Option String := Option.none
  start : Option Int := Option.none
  endPos : Option Int := Option.none
  style : Option String := Option.none
  heading_index : Option Int := Option.none
  paragraphs : Option (List ParaMeta) := Option.none
  table_index : Option Int := Option.none
  rows : List (List CellRef) := []
  options : List CheckOption := []
  sectionF : Option Section := Option.none
deriving DecidableEq

/-- A public schema field (the union of the textarea- and table-shaped
dicts `build_schema` emits; `rows` and `default` of a table field hold the
same cloned matrix, kept once as `default_rows`). -/
structure SchemaField where
  name : String
  type : String
  label : String
  default_rows : List (List String) := []
  default_text : String := ""
  polishable : Bool := false
deriving DecidableEq

/-- A schema group `{"section": ..., "fields": [...]}`. -/
structure SchemaGroup where
  sectionLabel : String
  fields : List SchemaField
deriving DecidableEq

/-- The field name `attach_table_field` computes for a table summary. -/
def tableFieldName (t : TableSummary) : String :=
  if strTruthy t.section_id then
    t.section_id.getD "" ++ "_table_" ++ toString (t.table_index + 1)
  else "table_" ++ toString (t.table_index + 1)

/-- The field-map entry `attach_table_field` stores for a table summary. -/
def tableFieldMeta (t : TableSummary) : FieldMeta :=
  { type := some "table", table_index := some (t.table_index : Int),
    rows := t.cell_meta }

/-- `attach_table_field(target_fields, table_info)`: threads the closed-over
`field_map` / `applied_tables` state explicitly. -/
def attach_table_field (field_map : List (String × FieldMeta))
    (applied : List Nat) (target : List SchemaField) (t : TableSummary) :
    List (String × FieldMeta) × List Nat × List SchemaField :=
  let field_name := tableFieldName t
  let table_label := if t.label ≠ "" then t.label
    else friendly_label_from_name field_name
  (alInsert field_map field_name (tableFieldMeta t),
   applied ++ [t.table_index],
   target ++ [{ name := field_name, type := "table", label := table_label,
                default_rows := clone_table_rows t.rows }])

/-- `tables_by_section`: group the summaries by `section_id`, keeping
insertion order of both keys and per-key lists. -/
def tablesBySection (tables : List TableSummary) :
    List (Option String × List TableSummary) :=
  tables.foldl (fun d t =>
    match alGet d t.section_id with
    | some l => alInsert d t.section_id (l ++ [t])
    | Option.none => d ++ [(t.section_id, [t])]) []

/-- `build_schema(doc, sections, placeholders, tables)` (the `doc` and
`placeholders` arguments are unused by the source body). -/
def build_schema (sections : List Section) (tables : List TableSummary) :
    List SchemaGroup × List (String × FieldMeta) :=
  let groups := tablesBySection tables
  let afterSections :=
    sections.foldl
      (fun (st : List SchemaGroup × List (String × FieldMeta) × List Nat) s =>
        let field_name := s.id ++ "_content"
        let fm1 := alInsert st.2.1 field_name
          { type := some "section", sectionF := some s }
        let fields0 : List SchemaField :=
          [{ name := field_name, type := "textarea", label := s.heading,
             default_text := s.default_text, polishable := true }]
        let attached := ((alGet groups (some s.id)).getD []).foldl
          (fun (acc : List (String × FieldMeta) × List Nat × List SchemaField) t =>
            attach_table_field acc.1 acc.2.1 acc.2.2 t)
          (fm1, st.2.2, fields0)
        (st.1 ++ [{ sectionLabel := s.heading, fields := attached.2.2 }],
         attached.1, attached.2.1))
      ([], [], [])
  let afterOrphans :=
    tables.foldl
      (fun (st : List SchemaGroup × List (String × FieldMeta) × List Nat) t =>
        if t.table_index ∈ st.2.2 then st
        else
          let attached := attach_table_field st.2.1 st.2.2 [] t
          let headName := (attached.2.2.headD
            { name := "", type := "", label := "" }).name
          (st.1 ++ [{ sectionLabel := if t.label ≠ "" then t.label
                        else friendly_label_from_name headName,
                      fields := attached.2.2 }],
           attached.1, attached.2.1))
      afterSections
  (afterOrphans.1, afterOrphans.2.1)

/-! ## Field application: tables -/

/-- A paragraph fresh from `add_paragraph("")`. -/
def emptyParagraph : Paragraph := { runs := [] }

/-- `set_cell_text(cell, text)`: write a single paragraph (single markdown
pass) into the cell, deleting any extra paragraphs. -/
def set_cell_text (cell : Cell) (text : PyVal) : Cell :=
  let value := if text.isNone then "" else text.pyStr
  let cps := if cell.paragraphs.isEmpty then [emptyParagraph] else cell.paragraphs
  { paragraphs := [replace_paragraph_text (cps.headD emptyParagraph) value] }

/-- A row appended by `table.add_row()`: one empty paragraph per grid column. -/
def newTableRow (gridCols : Nat) : TableRow :=
  { cells := List.replicate gridCols { paragraphs := [emptyParagraph] } }

/-- The `while len(table.rows) < target_rows: table.add_row()` loop,
recursing on the number of iterations it performs. -/
def growRows (gridCols : Nat) (rows : List TableRow) : Nat → List TableRow
  | 0 => rows
  | k + 1 => growRows gridCols (rows ++ [newTableRow gridCols]) k

/-- The `while len(table.rows) > target_rows: delete_table_row(last)` loop. -/
def shrinkRows (rows : List TableRow) : Nat → List TableRow
  | 0 => rows
  | k + 1 => shrinkRows rows.dropLast k

/-- The normalized `value_rows` matrix of `apply_table_field`. -/
def tableValueRows (gridCols : Nat) (value : PyVal) : List (List PyVal) :=
  match value with
  | .list rows => rows.map (fun row =>
      match row with
      | .list cells => cells.map (fun c => if c.isNone then PyVal.str "" else c)
      | .dict d => (List.range gridCols).map (fun ci =>
          (alGet d (toString ci)).getD (PyVal.str ""))
      | other => [other])
  | other => [[other]]

/-- `apply_table_field(doc, field_meta, value)`. -/
def apply_table_field (doc : Doc) (fm : FieldMeta) (value : PyVal) : Doc :=
  match fm.table_index with
  | Option.none => doc
  | some ti =>
    if ti < 0 ∨ (doc.tables.length : Int) ≤ ti then doc
    else
      let tidx := ti.toNat
      let table := doc.tables.getD tidx { rows := [], gridCols := 0 }
      let value_rows := tableValueRows table.gridCols value
      let target_rows := max value_rows.length 1
      let rows1 := growRows table.gridCols table.rows
        (target_rows - table.rows.length)
      let rows2 := shrinkRows rows1 (rows1.length - target_rows)
      let max_columns := rows2.foldl (fun m r => max m r.cells.length) 0
      let rows3 := rows2.enum.map (fun rrow =>
        let row_values := if rrow.1 < value_rows.length
          then value_rows.getD rrow.1 []
          else List.replicate max_columns (PyVal.str "")
        { cells := rrow.2.cells.enum.map (fun ccell =>
            set_cell_text ccell.2 (row_values.getD ccell.1 (PyVal.str ""))) })
      let newTable : Table := { rows := rows3, gridCols := table.gridCols }
      { doc with tables := doc.tables.set tidx newTable }

/-! ## Field application: checkbox groups -/

/-- Python truthiness of a payload value. -/
def PyVal.pyTruthy : PyVal → Bool
  | .none => false
  | .str s => s ≠ ""
  | .int n => n ≠ 0
  | .bool b => b
  | .list xs => !xs.isEmpty
  | .dict d => !d.isEmpty

/-- Does a dict key (an arbitrary payload value in Python) equal the given
string?  Non-string keys never equal a string. -/
def pyValKeyEqStr (v : PyVal) (s : String) : Bool :=
  match v with
  | .str t => t = s
  | _ => false

/-- The `entries` dict of `apply_checkbox_field`: keyed by the entry's
`value`, carrying `(selected, text)`.  Source dict updates by arbitrary key
equality; the model distinguishes only string keys, which is all the engine
ever looks up. -/
def checkboxEntries (value : PyVal) : List (PyVal × (Bool × PyVal)) :=
  match value with
  | .list es => es.foldl (fun d entry =>
      match entry with
      | .dict ed =>
        match alGet ed "value" with
        | some v =>
          let item := ((alGet ed "selected").getD PyVal.none |>.pyTruthy,
                       (alGet ed "text").getD (PyVal.str ""))
          if (d.find? (fun kv => match v with
              | .str s => pyValKeyEqStr kv.1 s
              | _ => false)).isSome then
            d.map (fun kv => if (match v with
                | .str s => pyValKeyEqStr kv.1 s
                | _ => false) then (v, item) else kv)
          else d ++ [(v, item)]
        | Option.none => d
      | .str s =>
        let item := (true, PyVal.str "")
        if (d.find? (fun kv => pyValKeyEqStr kv.1 s)).isSome then
          d.map (fun kv => if pyValKeyEqStr kv.1 s then (PyVal.str s, item) else kv)
        else d ++ [(PyVal.str s, item)]
      | _ => d) []
  | _ => []

/-- `entries.get(option["value"])`. -/
def checkboxEntryFor (entries : List (PyVal × (Bool × PyVal))) (v : String) :
    Option (Bool × PyVal) :=
  (entries.find? (fun kv => pyValKeyEqStr kv.1 v)).map (fun kv => kv.2)

/-- One iteration of the option loop of `apply_checkbox_field`. -/
def checkboxStep (entries : List (PyVal × (Bool × PyVal))) (d : Doc)
    (o : CheckOption) : Doc :=
  let idx : Int := o.paragraph_index.getD 0
  if (d.paragraphs.length : Int) ≤ idx ∨ idx < 0 then d
  else
    let i := idx.toNat
    let paragraph0 := d.paragraphs.getD i emptyParagraph
    let paragraph := if strTruthy o.style
      then { paragraph0 with styleName := o.style.getD "" }
      else paragraph0
    let entry := (checkboxEntryFor entries o.value).getD (true, PyVal.str "")
    if !entry.1 then
      { d with paragraphs := (d.paragraphs.set i paragraph).eraseIdx i }
    else
      let new_text := if entry.2.pyTruthy then entry.2.pyStr else o.text.getD ""
      let newP := replace_paragraph_text paragraph new_text
        (some (capture_run_formatting paragraph))
        (capture_paragraph_properties paragraph)
        (capture_list_properties paragraph)
      { d with paragraphs := d.paragraphs.set i newP }

/-- `apply_checkbox_field(doc, field_meta, value)`. -/
def apply_checkbox_field (doc : Doc) (fm : FieldMeta) (value : PyVal) : Doc :=
  (pySortedDescBy (fun o => o.paragraph_index.getD 0) fm.options).foldl
    (checkboxStep (checkboxEntries value)) doc

/-! ## Text block splitting (`split_paragraph_blocks` and helpers) -/

/-- Sequential `replace("\r\n","\n").replace("\r","\n")`. -/
def normalizeNewlines : List Char → List Char
  | [] => []
  | '\r' :: '\n' :: rest => '\n' :: normalizeNewlines rest
  | '\r' :: rest => '\n' :: normalizeNewlines rest
  | c :: rest => c :: normalizeNewlines rest

/-- `text_looks_like_list_item(text)`. -/
def text_looks_like_list_item (text : String) : Bool :=
  match (pyStrip text).data with
  | [] => false
  | c :: rest =>
    bulletChars.contains c || matchSimpleNumberedList (c :: rest)

/-- The leading character class stripped by `clean_bullet_text`. -/
def cleanBulletClass (c : Char) : Bool :=
  ['•', '‣', '◦', '⁃', '∙', '-', '*',
    '–', '—', '.', ')'].contains c || pySpace c

/-- `clean_bullet_text(text)`. -/
def clean_bullet_text (text : String) : String :=
  pyStrip (String.mk ((pyStrip text).data.dropWhile cleanBulletClass))

/-- `_line_is_section_heading(line)`. -/
def line_is_section_heading (line : String) : Bool :=
  match (pyStrip line).data with
  | [] => false
  | c :: rest =>
    if bulletChars.contains c then false
    else if matchSectionHeadingLine (c :: rest) then true
    else
      let words := pySplitWs (String.mk (c :: rest))
      let alpha_words := words.filter (fun w =>
        match w.data with
        | d :: _ => d.isAlpha
        | [] => false)
      decide (2 ≤ alpha_words.length ∧ alpha_words.length ≤ 8) &&
        alpha_words.all (fun w =>
          match w.data with
          | d :: _ => d.isUpper
          | [] => false)

/-- Prepend a character onto the first block of a block list. -/
def prependChar (c : Char) : List (List Char) → List (List Char)
  | l :: ls => (c :: l) :: ls
  | [] => [[c]]

/-- `re.split(r"\n{2,}", ·)` as a three-state scanner: state 0 is plain
text, state 1 has one pending newline (literal unless another follows),
state 2 is inside a separator run of which two newlines are consumed. -/
def sbScan : Nat → List Char → List (List Char)
  | 0, [] => [[]]
  | 1, [] => [['\n']]
  | _, [] => [[]]
  | 0, c :: rest =>
    if c = '\n' then sbScan 1 rest else prependChar c (sbScan 0 rest)
  | 1, c :: rest =>
    if c = '\n' then [] :: sbScan 2 rest
    else prependChar '\n' (prependChar c (sbScan 0 rest))
  | _, c :: rest =>
    if c = '\n' then sbScan 2 rest else prependChar c (sbScan 0 rest)

/-- `re.split(r"\n{2,}", ·)`: blocks between maximal runs of two or more
newlines. -/
def sbGo (l : List Char) : List (List Char) := sbScan 0 l

/-- Split on single newlines, keeping empty lines (`str.split("\n")`). -/
def splitLines : List Char → List (List Char)
  | [] => [[]]
  | c :: rest =>
    if c = '\n' then [] :: splitLines rest
    else prependChar c (splitLines rest)

/-- `_ensure_section_breaks(text)`. -/
def ensure_section_breaks (text : String) : String :=
  let lines := (splitLines text.data).map String.mk
  let rebuilt := lines.foldl (fun (acc : List String) line =>
    let stripped := pyStrip line
    if stripped ≠ "" ∧ line_is_section_heading stripped ∧ acc ≠ []
        ∧ pyStrip ((acc.getLastD "")) ≠ "" then
      acc ++ ["", line]
    else acc ++ [line]) []
  String.intercalate "\n" rebuilt

/-- Truthiness of Python's optional `target_count` (`None` and `0` falsy). -/
def tcTruthy : Option Nat → Bool
  | Option.none => false
  | some n => n ≠ 0

/-- `split_paragraph_blocks(text, target_count)`. -/
def split_paragraph_blocks (text : String) (target_count : Option Nat) :
    List String :=
  let normalized := ensure_section_breaks (String.mk (normalizeNewlines text.data))
  let blocks0 :=
    if pyStrip normalized = "" then [""]
    else
      let primary := (sbGo normalized.data).map (fun b => String.mk (stripChars b))
      if tcTruthy target_count ∧ primary.length < target_count.getD 0 then
        let lines := ((splitLines normalized.data).map
          (fun l => String.mk (stripChars l))).filter (fun l => l ≠ "")
        if target_count.getD 0 ≤ lines.length then lines else primary
      else primary
  let blocks1 :=
    if tcTruthy target_count ∧ blocks0.length < target_count.getD 0 then
      blocks0 ++ List.replicate (target_count.getD 0 - blocks0.length) ""
    else blocks0
  if blocks1.isEmpty then [""] else blocks1

/-! ## Field application: textarea / section content -/

/-- `paragraph_meta_for(index, block_text)` (closure inside
`apply_textarea_field`). -/
def paragraph_meta_for (metas : List ParaMeta) (i : Nat)
    (blockText : Option String) : ParaMeta :=
  let base : ParaMeta :=
    if metas.isEmpty then {}
    else if i < metas.length then metas.getD i {}
    else metas.getLastD {}
  match blockText with
  | some bt =>
    if !text_looks_like_list_item bt then { base with numpr_xml := Option.none }
    else base
  | Option.none => base

/-- The `for idx in range(end - 1, start, -1): remove` loop (with its
`idx < len` guard). -/
def deleteDescRange (ps : List Paragraph) (start endN : Nat) : List Paragraph :=
  ((List.range' (start + 1) (endN - (start + 1))).reverse).foldl
    (fun acc idx => if idx < acc.length then acc.eraseIdx idx else acc) ps

/-- One inserted trailing block of `apply_textarea_field`: built by
`insert_paragraph_after`, then restyled when the meta names a style. -/
def insertedBlockParagraph (b : String) (m : ParaMeta) : Paragraph :=
  let par := inserted_paragraph b m.run_format m.ppr_xml m.numpr_xml
  if strTruthy m.style then { par with styleName := m.style.getD "" } else par

/-- `apply_textarea_field(doc, field_meta, value)`. -/
def apply_textarea_field (doc : Doc) (fm : FieldMeta) (value : PyVal) : Doc :=
  let metas := fm.paragraphs.getD []
  let doc1 := if doc.paragraphs.isEmpty
    then { doc with paragraphs := [emptyParagraph] } else doc
  let len1 := doc1.paragraphs.length
  let start0 : Int := fm.start.getD 0
  let end0 : Int := fm.endPos.getD start0
  let norm : Doc × Nat × Nat :=
    if (len1 : Int) ≤ start0 then
      match fm.heading_index with
      | some hi =>
        if 0 ≤ hi ∧ hi < (len1 : Int) then
          let s := hi.toNat + 1
          ({ doc1 with paragraphs :=
              doc1.paragraphs.take s ++ [emptyParagraph] ++ doc1.paragraphs.drop s },
           s, s + 1)
        else
          ({ doc1 with paragraphs := doc1.paragraphs ++ [emptyParagraph] },
           len1, len1 + 1)
      | Option.none =>
        ({ doc1 with paragraphs := doc1.paragraphs ++ [emptyParagraph] },
         len1, len1 + 1)
    else
      let s := (max 0 start0).toNat
      (doc1, s, (max (s + 1 : Int) end0).toNat)
  let doc2 := norm.1
  let start := norm.2.1
  let endN := min doc2.paragraphs.length (max (start + 1) norm.2.2)
  let text_value := if value.isNone then "" else value.pyStr
  let target_count : Option Nat :=
    if metas.isEmpty then Option.none else some metas.length
  let blocks0 := split_paragraph_blocks text_value target_count
  let block_metas := blocks0.enum.map (fun ib =>
    paragraph_meta_for metas ib.1 (some ib.2))
  let blocks := (blocks0.zip block_metas).map (fun bm =>
    if strTruthy bm.2.numpr_xml then clean_bullet_text bm.1 else bm.1)
  let primary := doc2.paragraphs.getD start emptyParagraph
  let primary_meta := block_metas.headD {}
  let run_fmt := primary_meta.run_format
  let ppr_xml := primary_meta.ppr_xml
  let numpr_xml := primary_meta.numpr_xml
  let original_primary_text := pyStrip primary.text
  let block0 := pyStrip (blocks.headD "")
  let newPrimary0 :=
    if (target_count = Option.none ∨ target_count = some 1) ∧ block0 ≠ ""
        ∧ block0 = original_primary_text then
      replace_paragraph_text primary original_primary_text run_fmt ppr_xml numpr_xml
    else
      replace_paragraph_text primary (blocks.headD "") run_fmt ppr_xml numpr_xml
  let newPrimary1 := if strTruthy primary_meta.style
    then { newPrimary0 with styleName := primary_meta.style.getD "" }
    else newPrimary0
  let newPrimary2 := if strTruthy primary_meta.ppr_xml
    then apply_paragraph_properties newPrimary1 primary_meta.ppr_xml
    else newPrimary1
  let newPrimary3 := if strTruthy primary_meta.numpr_xml
    then apply_list_properties newPrimary2 primary_meta.numpr_xml
    else newPrimary2
  let afterSet := doc2.paragraphs.set start newPrimary3
  let afterDel := deleteDescRange afterSet start endN
  let insertedList := ((blocks.zip block_metas).drop 1).map (fun bm =>
    insertedBlockParagraph bm.1 bm.2)
  { doc2 with paragraphs :=
      afterDel.take (start + 1) ++ insertedList ++ afterDel.drop (start + 1) }

/-- `replace_section_content(doc, section, value)`. -/
def replace_section_content (doc : Doc) (s : Section) (value : PyVal) : Doc :=
  let text_value := if value.isNone then "" else value.pyStr
  apply_textarea_field doc
    { start := some (s.content_start.getD 0)
      endPos := some (s.content_end.getD 0)
      heading_index := s.heading_index
      paragraphs := some s.paragraphs }
    (PyVal.str text_value)

/-- `apply_field(doc, field_meta, value)`. -/
def apply_field (doc : Doc) (fm : FieldMeta) (value : PyVal) : Doc :=
  match fm.type with
  | some t =>
    if t = "text" ∨ t = "textarea" ∨ t = "date" then
      apply_textarea_field doc fm value
    else if t = "checkbox-group" then apply_checkbox_field doc fm value
    else if t = "table" then apply_table_field doc fm value
    else if t = "section" then
      replace_section_content doc (fm.sectionF.getD defaultSection) value
    else doc
  | Option.none => doc

/-! ## Placeholder substitution (`replace_placeholders`) -/

/-- Attempt the regex `\{\{\s*key\s*\}\}` right after an opening `{{`:
greedily skip whitespace, expect `key` literally, skip whitespace, expect
the closing braces; return the suffix after the match.  The greedy scan is
the regex's backtracking match whenever `key` neither starts with
whitespace nor contains whitespace or `\x7d` — true of every placeholder
identifier, and hypotheses of the theorems below. -/
def phTryMatch (key : List Char) (l : List Char) : Option (List Char) :=
  let l1 := l.dropWhile pySpace
  if key.isPrefixOf l1 then
    match (l1.drop key.length).dropWhile pySpace with
    | '}' :: '}' :: rest => some rest
    | _ => Option.none
  else Option.none

/-- `re.sub` for the per-key pattern of `replace_in_paragraph`: leftmost
non-overlapping occurrences, scanning left to right.  Fuel is at least the
input length (each step consumes at least one character). -/
def phSubstOne (key repl : List Char) : Nat → List Char → List Char
  | 0, l => l
  | _ + 1, [] => []
  | f + 1, c :: rest =>
    if c = '{' then
      match rest with
      | c2 :: rest2 =>
        if c2 = '{' then
          match phTryMatch key rest2 with
          | some suffix => repl ++ phSubstOne key repl f suffix
          | Option.none => c :: phSubstOne key repl f rest
        else c :: phSubstOne key repl f rest
      | [] => [c]
    else c :: phSubstOne key repl f rest

/-- The `new_text` computation of `replace_in_paragraph`: fold the per-key
substitutions over the payload in insertion order, skipping structured
(list/dict) values. -/
def replaceInParagraphText (data : List (String × PyVal)) (text : String) :
    String :=
  data.foldl (fun t kv =>
    if kv.2.isStructured then t
    else
      let repl := if kv.2.isNone then "" else kv.2.pyStr
      String.mk (phSubstOne kv.1.data repl.data t.data.length t.data)) text

/-- `replace_in_paragraph(paragraph)` (closure over `data`). -/
def replace_in_paragraph (data : List (String × PyVal)) (p : Paragraph) :
    Paragraph :=
  let orig_text := p.text
  let new_text := replaceInParagraphText data orig_text
  if new_text ≠ orig_text then
    replace_paragraph_text p new_text (some (capture_run_formatting p))
      (capture_paragraph_properties p) (capture_list_properties p)
  else p

/-- The inline-substitution pass of `replace_placeholders`: body paragraphs,
every table cell's paragraphs, and header/footer paragraphs. -/
def substituteDoc (data : List (String × PyVal)) (doc : Doc) : Doc :=
  { paragraphs := doc.paragraphs.map (replace_in_paragraph data)
    tables := doc.tables.map (fun t =>
      { t with rows := t.rows.map (fun r =>
          { cells := r.cells.map (fun c =>
              { paragraphs := c.paragraphs.map (replace_in_paragraph data) }) }) })
    headers := doc.headers.map (fun h => h.map (replace_in_paragraph data))
    footers := doc.footers.map (fun h => h.map (replace_in_paragraph data)) }

/-- Stored template metadata, as far as `replace_placeholders` reads it. -/
structure Metadata where
  field_map : List (String × FieldMeta) := []
  auto_sections : List Section := []

/-- `ordered_fields`: the field map sorted by
`item[1].get("start", 0)` descending (stable). -/
def orderedFields (fm : List (String × FieldMeta)) :
    List (String × FieldMeta) :=
  pySortedDescBy (fun kv => kv.2.start.getD 0) fm

/-- The structured-field loop of `replace_placeholders`. -/
def applyFieldList (fields : List (String × FieldMeta))
    (data : List (String × PyVal)) (doc : Doc) : Doc :=
  fields.foldl (fun d kv =>
    if alContains data kv.1 then
      apply_field d kv.2 ((alGet data kv.1).getD PyVal.none)
    else d) doc

/-- The names of the structured fields `replace_placeholders` applies, in
application order (the loop order over `ordered_fields` restricted to the
fields present in the payload). -/
def applicationOrder (data : List (String × PyVal))
    (fm : List (String × FieldMeta)) : List String :=
  ((orderedFields fm).filter (fun kv => alContains data kv.1)).map
    (fun kv => kv.1)

/-- `replace_placeholders(doc, data, metadata)` (a `metadata` of `None` — or
the equally falsy empty dict — stops after inline substitution). -/
def replace_placeholders (doc : Doc) (data : List (String × PyVal))
    (metadata : Option Metadata) : Doc :=
  let doc1 := substituteDoc data doc
  match metadata with
  | Option.none => doc1
  | some md =>
    if md.field_map.isEmpty then
      let section_map := md.auto_sections.foldl
        (fun d s => alInsert d s.id s) []
      data.foldl (fun d kv =>
        match alGet section_map kv.1 with
        | some s => replace_section_content d s kv.2
        | Option.none => d) doc1
    else
      applyFieldList (orderedFields md.field_map) data doc1

/-! ## Helper notions used only to state the claims -/

/-- The text the markdown pass writes for an input string: all segment texts,
with the bold delimiters consumed. -/
def markdownText (s : String) : String :=
  String.join ((markdownSegments s).map (fun seg => seg.1))

/-- `cell.text` in python-docx: paragraph texts joined by newlines. -/
def cellText (c : Cell) : String :=
  String.intercalate "\n" (c.paragraphs.map Paragraph.text)

/-- The row count `k` a table value supplies: the list length, or `1` for a
bare scalar (or mapping) treated as one row. -/
def pyRowCount : PyVal → Nat
  | .list rows => rows.length
  | _ => 1

/-- The `content_start` recorded in the section metadata of a field-map
entry: the document anchor of a section-typed structured field. -/
def sectionContentStartOf (fm : List (String × FieldMeta)) (name : String) :
    Option Int :=
  (alGet fm name).bind (fun m => m.sectionF.bind (fun s => s.content_start))

/-- A paragraph text abstracted as literal chunks and placeholders (the
specification-side view of §4.4's substitution). -/
inductive Piece where
  | lit (s : String)
  | ph (ws1 : String) (key : String) (ws2 : String)
deriving DecidableEq

/-- Well-formedness of a piece: literal chunks contain no opening brace, a
placeholder is `\x7b\x7b ws key ws \x7d\x7d` with a nonempty identifier key and
whitespace padding. -/
def Piece.wf : Piece → Bool
  | .lit s => s.data.all (fun c => c ≠ '{')
  | .ph ws1 key ws2 =>
    ws1.data.all pySpace && ws2.data.all pySpace && key ≠ ""
      && key.data.all isPlaceholderChar

/-- Concrete text of a piece. -/
def Piece.render : Piece → String
  | .lit s => s
  | .ph ws1 key ws2 =>
    String.mk ('{' :: '{' :: ws1.data ++ key.data ++ ws2.data ++ ['}', '}'])

/-- Concrete text of a piece list. -/
def renderPieces (ps : List Piece) : String :=
  String.join (ps.map Piece.render)

/-- The substitution of §4.4 as specified: each placeholder whose key maps
to a scalar (non-list, non-dict) payload value becomes that value's string
form (empty for `None`); every other placeholder is left intact. -/
def substPiecesSpec (data : List (String × PyVal)) (ps : List Piece) :
    List Piece :=
  ps.map (fun pc =>
    match pc with
    | .lit s => .lit s
    | .ph ws1 key ws2 =>
      match alGet data key with
      | some v =>
        if v.isStructured then .ph ws1 key ws2
        else .lit (if v.isNone then "" else v.pyStr)
      | Option.none => .ph ws1 key ws2)

/-- Payload well-formedness for the substitution claim: keys are placeholder
identifiers and scalar replacement strings introduce no opening brace. -/
def substDataWf (data : List (String × PyVal)) : Bool :=
  data.all (fun kv =>
    kv.1 ≠ "" && kv.1.data.all isPlaceholderChar
      && (kv.2.isStructured
          || (if kv.2.isNone then "" else kv.2.pyStr).data.all (fun c => c ≠ '{')))

/-- Specification-side result of `apply_checkbox_field` when every option
points at a distinct in-range paragraph: a simultaneous pass over the
enumerated body paragraphs. -/
def checkboxExpected (doc : Doc) (fm : FieldMeta) (value : PyVal) :
    List Paragraph :=
  let entries := checkboxEntries value
  doc.paragraphs.enum.flatMap (fun ip =>
    match fm.options.find? (fun o => o.paragraph_index = some (ip.1 : Int)) with
    | some o =>
      let paragraph := if strTruthy o.style
        then { ip.2 with styleName := o.style.getD "" } else ip.2
      let entry := (checkboxEntryFor entries o.value).getD (true, PyVal.str "")
      if !entry.1 then []
      else
        let new_text := if entry.2.pyTruthy then entry.2.pyStr else o.text.getD ""
        [replace_paragraph_text paragraph new_text
          (some (capture_run_formatting paragraph))
          (capture_paragraph_properties paragraph)
          (capture_list_properties paragraph)]
    | Option.none => [ip.2])

/-- One key's substitution pass at the piece level: placeholders whose key
matches become the literal replacement; everything else is untouched. -/
def substOnePieces (key repl : String) (ps : List Piece) : List Piece :=
  ps.map (fun pc => match pc with
    | .lit s => Piece.lit s
    | .ph ws1 k ws2 => if k = key then Piece.lit repl else Piece.ph ws1 k ws2)

/-- The whole payload fold of `replace_in_paragraph`, tracked on a single
piece. -/
def substPieceFold (data : List (String × PyVal)) (pc : Piece) : Piece :=
  data.foldl (fun pc kv =>
    if kv.2.isStructured then pc
    else match pc with
      | .lit s => Piece.lit s
      | .ph ws1 k ws2 =>
        if k = kv.1 then Piece.lit (if kv.2.isNone then "" else kv.2.pyStr)
        else Piece.ph ws1 k ws2) pc

/-! # Theorems

## Decimal numerals are injective -/

theorem decDigitVal_digitChar (d : Nat) (h : d < 10) :
    decDigitVal (Nat.digitChar d) = d := by
  interval_cases d <;> rfl

theorem decValFrom_cons (a : Nat) (c : Char) (l : List Char) :
    decValFrom a (c :: l) = decValFrom (10 * a + decDigitVal c) l := rfl

theorem decValFrom_shift (l : List Char) :
    ∀ a : Nat, decValFrom a l = a * 10 ^ l.length + decValFrom 0 l := by
  induction l with
  | nil => intro a; simp [decValFrom]
  | cons c l ih =>
    intro a
    rw [decValFrom_cons, ih, decValFrom_cons 0, ih (10 * 0 + decDigitVal c)]
    simp only [List.length_cons, pow_succ]
    ring

theorem toDigitsCore_val :
    ∀ (f n : Nat) (ds : List Char), n < f →
      decValFrom 0 (Nat.toDigitsCore 10 f n ds)
        = n * 10 ^ ds.length + decValFrom 0 ds := by
  intro f
  induction f with
  | zero => intro n ds h; omega
  | succ f ih =>
    intro n ds h
    by_cases h10 : n / 10 = 0
    · have hmod : n % 10 = n := by omega
      have hlt : n % 10 < 10 := by omega
      simp only [Nat.toDigitsCore, h10, if_true]
      rw [decValFrom_cons, decValFrom_shift]
      rw [decDigitVal_digitChar _ hlt, hmod]
      simp
    · have hrec : n / 10 < f := by omega
      simp only [Nat.toDigitsCore, h10, if_false]
      rw [ih (n / 10) (Nat.digitChar (n % 10) :: ds) hrec]
      rw [decValFrom_cons, decValFrom_shift,
        decDigitVal_digitChar _ (by omega), List.length_cons]
      have hsplit : 10 * (n / 10) + n % 10 = n := Nat.div_add_mod n 10
      calc n / 10 * 10 ^ (ds.length + 1)
            + ((10 * 0 + n % 10) * 10 ^ ds.length + decValFrom 0 ds)
          = (10 * (n / 10) + n % 10) * 10 ^ ds.length + decValFrom 0 ds := by
            ring
        _ = n * 10 ^ ds.length + decValFrom 0 ds := by rw [hsplit]

theorem decVal_toDigits (n : Nat) : decValFrom 0 (Nat.toDigits 10 n) = n := by
  have := toDigitsCore_val (n + 1) n [] (Nat.lt_succ_self n)
  simpa [Nat.toDigits, decValFrom] using this

theorem natToString_inj {a b : Nat} (h : toString a = toString b) : a = b := by
  have hrepr : Nat.repr a = Nat.repr b := h
  have hd : Nat.toDigits 10 a = Nat.toDigits 10 b := congrArg String.data hrepr
  have := congrArg (decValFrom 0) hd
  rwa [decVal_toDigits, decVal_toDigits] at this

theorem strAppend_right_inj (s : String) {t1 t2 : String}
    (h : s ++ t1 = s ++ t2) : t1 = t2 := by
  have hd := congrArg String.data h
  rw [String.data_append, String.data_append] at hd
  have h2 := List.append_cancel_left hd
  cases t1; cases t2
  exact congrArg String.mk h2

theorem suffixedName_inj (cand : String) {i j : Nat}
    (h : cand ++ "_" ++ toString i = cand ++ "_" ++ toString j) : i = j := by
  have h1 : cand ++ ("_" ++ toString i) = cand ++ ("_" ++ toString j) := by
    simpa [String.append_assoc] using h
  have h2 := strAppend_right_inj cand h1
  have h3 := strAppend_right_inj "_" h2
  exact natToString_inj h3

/-! ## Freshness of the id-collision loop -/

theorem freshIdLoop_shape (cand : String) (seen : List String) :
    ∀ (fuel k : Nat), ∃ j, k ≤ j ∧
      freshIdLoop cand seen fuel k = cand ++ "_" ++ toString j := by
  intro fuel
  induction fuel with
  | zero => intro k; exact ⟨k, le_refl k, rfl⟩
  | succ fuel ih =>
    intro k
    by_cases hmem : (cand ++ "_" ++ toString k) ∈ seen
    · obtain ⟨j, hj, heq⟩ := ih (k + 1)
      exact ⟨j, by omega, by simp [freshIdLoop, hmem, heq]⟩
    · exact ⟨k, le_refl k, by simp [freshIdLoop, hmem]⟩

theorem freshIdLoop_not_mem (cand : String) (seen : List String) :
    ∀ (fuel k : Nat),
      (∃ i, i < fuel ∧ (cand ++ "_" ++ toString (k + i)) ∉ seen) →
      freshIdLoop cand seen fuel k ∉ seen := by
  intro fuel
  induction fuel with
  | zero => intro k ⟨i, hi, _⟩; omega
  | succ fuel ih =>
    intro k ⟨i, hi, hni⟩
    by_cases hmem : (cand ++ "_" ++ toString k) ∈ seen
    · have hi0 : i ≠ 0 := by
        intro h0; rw [h0] at hni; simp at hni; exact hni hmem
      have := ih (k + 1) ⟨i - 1, by omega, by
        have : k + 1 + (i - 1) = k + i := by omega
        rw [this]; exact hni⟩
      simpa [freshIdLoop, hmem] using this
    · simp [freshIdLoop, hmem]

theorem exists_fresh (cand : String) (seen : List String) (k : Nat) :
    ∃ i, i < seen.length + 1 ∧ (cand ++ "_" ++ toString (k + i)) ∉ seen := by
  by_contra hcon
  push_neg at hcon
  have hinj : Function.Injective (fun i => cand ++ "_" ++ toString (k + i)) := by
    intro i j hij
    have := suffixedName_inj cand hij
    omega
  have hnodup : ((List.range (seen.length + 1)).map
      (fun i => cand ++ "_" ++ toString (k + i))).Nodup :=
    (List.nodup_range _).map hinj
  have hsub : ((List.range (seen.length + 1)).map
      (fun i => cand ++ "_" ++ toString (k + i))) ⊆ seen := by
    intro x hx
    rw [List.mem_map] at hx
    obtain ⟨i, hi, rfl⟩ := hx
    exact hcon i (List.mem_range.mp hi)
  have hlen := (hnodup.subperm hsub).length_le
  simp at hlen

theorem uniquifyId_not_mem (cand : String) (seen : List String) :
    uniquifyId cand seen ∉ seen := by
  unfold uniquifyId
  by_cases hmem : cand ∈ seen
  · simp only [hmem, if_true]
    exact freshIdLoop_not_mem cand seen (seen.length + 1) 2
      (exists_fresh cand seen 2)
  · simp [hmem]

theorem uniquifyId_shape (cand : String) (seen : List String) :
    uniquifyId cand seen = cand ∨
      ∃ k, 2 ≤ k ∧ uniquifyId cand seen = cand ++ "_" ++ toString k := by
  unfold uniquifyId
  by_cases hmem : cand ∈ seen
  · obtain ⟨j, hj, heq⟩ := freshIdLoop_shape cand seen (seen.length + 1) 2
    exact Or.inr ⟨j, hj, by simpa [hmem] using heq⟩
  · exact Or.inl (by simp [hmem])

/-! ## Invariants of the heading-selection fold -/

/-- The section ids accumulated so far are exactly `seen_ids`, which stays
duplicate-free, and every accumulated section's id has the slug-or-suffixed
shape. -/
theorem headingFold_inv (nm : Bool) :
    ∀ (l : List (Nat × Paragraph)) (st : List Section × List String),
      st.1.map Section.id = st.2 → st.2.Nodup →
      (∀ s ∈ st.1, s.id = slugify s.heading ∨
        ∃ k, 2 ≤ k ∧ s.id = slugify s.heading ++ "_" ++ toString k) →
      ((l.foldl (headingStep nm) st).1.map Section.id
          = (l.foldl (headingStep nm) st).2
        ∧ (l.foldl (headingStep nm) st).2.Nodup
        ∧ ∀ s ∈ (l.foldl (headingStep nm) st).1,
            s.id = slugify s.heading ∨
            ∃ k, 2 ≤ k ∧ s.id = slugify s.heading ++ "_" ++ toString k) := by
  intro l
  induction l with
  | nil => intro st h1 h2 h3; exact ⟨h1, h2, h3⟩
  | cons ip l ih =>
    intro st h1 h2 h3
    simp only [List.foldl_cons]
    by_cases hkeep : headingKeep nm ip.2
    · refine ih _ ?_ ?_ ?_
      · simp [headingStep, hkeep, h1]
      · simp only [headingStep, hkeep, if_true]
        rw [List.nodup_append]
        refine ⟨h2, List.nodup_singleton _, ?_⟩
        intro a ha hb
        simp only [List.mem_singleton] at hb
        subst hb
        exact uniquifyId_not_mem _ _ ha
      · simp only [headingStep, hkeep, if_true]
        intro s hs
        rw [List.mem_append, List.mem_singleton] at hs
        rcases hs with hs | hs
        · exact h3 s hs
        · subst hs
          exact uniquifyId_shape _ _
    · simp only [headingStep, hkeep, if_false]
      exact ih st h1 h2 h3

/-- The heading indices selected by the fold: the already-accumulated ones
followed by the enumerated indices whose paragraph passes the mode's
predicate. -/
theorem headingFold_indices (nm : Bool) :
    ∀ (l : List (Nat × Paragraph)) (st : List Section × List String),
      (l.foldl (headingStep nm) st).1.map Section.heading_index
        = st.1.map Section.heading_index
          ++ (l.filter (fun ip => headingKeep nm ip.2)).map
              (fun ip => some ((ip.1 : Int))) := by
  intro l
  induction l with
  | nil => intro st; simp
  | cons ip l ih =>
    intro st
    simp only [List.foldl_cons]
    by_cases hkeep : headingKeep nm ip.2
    · rw [ih]
      simp [headingStep, hkeep, List.filter_cons]
    · rw [ih]
      simp [headingStep, hkeep, List.filter_cons]

/-- Indexing a list through `List.range` reproduces `map`. -/
theorem range_map_getD {α β : Type} (l : List α) (d : α) (f : α → β) :
    (List.range l.length).map (fun i => f (l.getD i d)) = l.map f := by
  induction l with
  | nil => simp
  | cons a l ih =>
    rw [List.length_cons, List.range_succ_eq_map]
    simp only [List.map_cons, List.map_map, List.getD_cons_zero]
    refine congrArg (f a :: ·) ?_
    rw [← ih]
    refine List.map_congr_left ?_
    intro i _
    simp [List.getD_cons_succ]

/-- The second pass of `infer_sections` only attaches content metadata:
any projection ignoring the attached fields is unchanged. -/
theorem infer_sections_map_proj {β : Type} (doc : Doc) (f : Section → β)
    (hf : ∀ (s : Section) (cs ce : Option Int) (pm : List ParaMeta)
      (dt : String),
      f { s with content_start := cs, content_end := ce,
                 paragraphs := pm, default_text := dt } = f s) :
    (infer_sections doc).map f = (inferHeadings doc).map f := by
  unfold infer_sections
  by_cases h : (inferHeadings doc).isEmpty = true
  · have hnil : inferHeadings doc = [] := List.isEmpty_iff.mp h
    simp [h, hnil]
  · rw [if_neg h, List.map_map]
    refine Eq.trans (List.map_congr_left ?_)
      (range_map_getD (inferHeadings doc) defaultSection f)
    intro i _
    exact hf _ _ _ _ _

/-- C6: the section ids produced by `infer_sections` are pairwise distinct;
each id is the slug of its heading text, a numeric suffix `_2`, `_3`, …
being appended on collision. -/
theorem infer_sections_ids_unique (doc : Doc) :
    ((infer_sections doc).map Section.id).Nodup ∧
      ∀ s ∈ infer_sections doc,
        s.id = slugify s.heading ∨
          ∃ k, 2 ≤ k ∧ s.id = slugify s.heading ++ "_" ++ toString k := by
  have hpair := infer_sections_map_proj doc (fun s => (s.id, s.heading))
    (by intro s cs ce pm dt; rfl)
  obtain ⟨hmap, hnodup, hshape⟩ :=
    headingFold_inv (doc.paragraphs.any is_top_level_numbered_heading)
      doc.paragraphs.enum ([], []) rfl List.nodup_nil
      (by intro s hs; simp at hs)
  have hid : (infer_sections doc).map Section.id
      = (inferHeadings doc).map Section.id := by
    have hcomp := congrArg (List.map Prod.fst) hpair
    simpa [List.map_map] using hcomp
  constructor
  · rw [hid]
    have : (inferHeadings doc).map Section.id
        = (doc.paragraphs.enum.foldl
            (headingStep (doc.paragraphs.any is_top_level_numbered_heading))
            ([], [])).2 := hmap
    rw [this]
    exact hnodup
  · intro s hs
    have hmem : (s.id, s.heading) ∈
        (inferHeadings doc).map (fun s => (s.id, s.heading)) := by
      rw [← hpair]
      exact List.mem_map_of_mem _ hs
    rw [List.mem_map] at hmem
    obtain ⟨s', hs', heq⟩ := hmem
    have h1 : s'.id = s.id := congrArg Prod.fst heq
    have h2 : s'.heading = s.heading := congrArg Prod.snd heq
    have hsh := hshape s' hs'
    rw [h1, h2] at hsh
    exact hsh

/-- C6 witness: a document with three headings of duplicate slugs gets the
ids `scope`, `scope_2`, `scope_3`. -/
theorem infer_sections_ids_unique_witness :
    ((infer_sections { paragraphs :=
        [{ runs := [{ text := "Scope" }], styleName := "Heading 1" },
         { runs := [{ text := "SCOPE" }], styleName := "Heading 1" },
         { runs := [{ text := "scope!" }], styleName := "Heading 1" }] }).map
      Section.id) = ["scope", "scope_2", "scope_3"] ∧
    (((infer_sections { paragraphs :=
        [{ runs := [{ text := "Scope" }], styleName := "Heading 1" },
         { runs := [{ text := "SCOPE" }], styleName := "Heading 1" },
         { runs := [{ text := "scope!" }], styleName := "Heading 1" }] }).map
      Section.id)).Nodup := by
  refine ⟨by decide, ?_⟩
  exact (infer_sections_ids_unique _).1

/-- C3: as soon as one paragraph matches the top-level numbered-heading
pattern, the headings `infer_sections` selects are exactly the paragraphs
matching that pattern — the style/bold/font-size/caps/colon heuristics are
never consulted. -/
theorem infer_sections_numbered_exclusive (doc : Doc)
    (h : ∃ p ∈ doc.paragraphs, is_top_level_numbered_heading p) :
    (infer_sections doc).map Section.heading_index
      = (doc.paragraphs.enum.filter
          (fun ip => is_top_level_numbered_heading ip.2)).map
          (fun ip => some ((ip.1 : Int))) := by
  have hnm : doc.paragraphs.any is_top_level_numbered_heading = true := by
    rw [List.any_eq_true]
    obtain ⟨p, hp, hpp⟩ := h
    exact ⟨p, hp, hpp⟩
  have hproj := infer_sections_map_proj doc Section.heading_index
    (by intro s cs ce pm dt; rfl)
  rw [hproj]
  show ((doc.paragraphs.enum.foldl
      (headingStep (doc.paragraphs.any is_top_level_numbered_heading))
      ([], [])).1.map Section.heading_index) = _
  rw [hnm, headingFold_indices]
  simp only [List.map_nil, List.nil_append]
  rfl

/-- C3 witness: with a numbered paragraph present, a bold all-caps paragraph
is not selected; the single numbered paragraph is the only heading. -/
theorem infer_sections_numbered_exclusive_witness :
    (infer_sections { paragraphs :=
        [{ runs := [{ text := "1 Introduction" }] },
         { runs := [{ text := "RISKS", bold := some true }],
           styleName := "Heading 1" },
         { runs := [{ text := "body text here" }] }] }).map
      Section.heading_index = [some 0] := by
  have happ := infer_sections_numbered_exclusive { paragraphs :=
        [{ runs := [{ text := "1 Introduction" }] },
         { runs := [{ text := "RISKS", bold := some true }],
           styleName := "Heading 1" },
         { runs := [{ text := "body text here" }] }] }
    ⟨{ runs := [{ text := "1 Introduction" }] }, by decide, by decide⟩
  rw [happ]
  decide

/-! ## C4: bullet paragraphs and heading detection -/

theorem matchTopLevelHeading_not_digit (c : Char) (rest : List Char)
    (h : c.isDigit = false) : matchTopLevelHeading (c :: rest) = false := by
  simp [matchTopLevelHeading, List.takeWhile, h]

/-- C4 counterexample: a paragraph whose stripped text starts with the
bullet glyph `•` but whose style is named `Heading 1` is detected as a
heading — the style check of `looks_like_heading` runs before the bullet
check, so the claim fails as stated. -/
theorem looks_like_heading_bullet_counterexample :
    (pyStrip (Paragraph.text
        { runs := [{ text := "• Item" }], styleName := "Heading 1" })).data.head?
      = some '•'
    ∧ looks_like_heading
        { runs := [{ text := "• Item" }], styleName := "Heading 1" } = true := by
  decide

/-- C4 amended: a paragraph whose stripped text starts with a bullet glyph
and whose style name does not contain `heading`/`title`/`subtitle` is never
a heading, regardless of bold runs, font size, capitalization or a trailing
colon. -/
theorem looks_like_heading_bullet_amended (p : Paragraph) (c : Char)
    (rest : List Char) (hdata : (pyStrip p.text).data = c :: rest)
    (hc : c ∈ bulletChars)
    (hstyle : styleIsHeadingLike p.styleName = false) :
    looks_like_heading p = false := by
  have ht : pyStrip p.text = ⟨c :: rest⟩ := congrArg String.mk hdata
  have hdig : c.isDigit = false := by
    have hall : ∀ x ∈ bulletChars, x.isDigit = false := by decide
    exact hall c hc
  have hcontains : bulletChars.contains c = true := by
    fin_cases hc <;> decide
  simp only [looks_like_heading, ht]
  rw [if_neg (by simp [String.ext_iff]), if_neg (by simp [hstyle])]
  rw [if_neg (by simp [matchTopLevelHeading_not_digit c rest hdig])]
  simp [hc]

/-- C4 witness for the amended theorem: a bold, short, colon-terminated
bullet paragraph with a plain style is not a heading. -/
theorem looks_like_heading_bullet_amended_witness :
    looks_like_heading
      { runs := [{ text := "- Point:", bold := some true }],
        styleName := "Normal" } = false :=
  looks_like_heading_bullet_amended _ '-' " Point:".data (by decide) (by decide)
    (by decide)

/-! ## C2: table field naming in `build_schema` -/

theorem alInsert_mem {κ α : Type} [DecidableEq κ] {d : List (κ × α)} {k : κ}
    {v : α} {kv : κ × α} (h : kv ∈ alInsert d k v) : kv ∈ d ∨ kv = (k, v) := by
  unfold alInsert at h
  by_cases hc : alContains d k = true
  · rw [if_pos hc] at h
    rw [List.mem_map] at h
    obtain ⟨kv', hkv', heq⟩ := h
    by_cases hk : kv'.1 = k
    · right; rw [← heq]; simp [hk]
    · left; rw [← heq]; simpa [hk] using hkv'
  · rw [if_neg hc] at h
    rw [List.mem_append, List.mem_singleton] at h
    exact h

theorem alGet_mem {κ α : Type} [DecidableEq κ] {d : List (κ × α)} {k : κ}
    {v : α} (h : alGet d k = some v) : (k, v) ∈ d := by
  unfold alGet at h
  cases hf : d.find? (fun kv => kv.1 = k) with
  | none => rw [hf] at h; exact Option.noConfusion h
  | some kv =>
    rw [hf] at h
    have hval : kv.2 = v := Option.some.inj h
    have hmem := List.mem_of_find?_eq_some hf
    have hpred := List.find?_some hf
    simp only [decide_eq_true_eq] at hpred
    have : kv = (k, v) := by
      cases kv
      simp_all
    rwa [this] at hmem

theorem tablesBySection_mem (tables : List TableSummary) :
    ∀ kv ∈ tablesBySection tables, ∀ t ∈ kv.2, t ∈ tables := by
  unfold tablesBySection
  suffices h : ∀ (l : List TableSummary)
      (acc : List (Option String × List TableSummary)),
      (∀ x ∈ l, x ∈ tables) →
      (∀ kv ∈ acc, ∀ t ∈ kv.2, t ∈ tables) →
      ∀ kv ∈ (l.foldl (fun d t =>
          match alGet d t.section_id with
          | some l' => alInsert d t.section_id (l' ++ [t])
          | Option.none => d ++ [(t.section_id, [t])]) acc),
        ∀ t ∈ kv.2, t ∈ tables by
    exact h tables [] (fun x hx => hx) (by intro kv hkv; simp at hkv)
  intro l
  induction l with
  | nil => intro acc _ hacc; simpa using hacc
  | cons x l ih =>
    intro acc hl hacc
    simp only [List.foldl_cons]
    refine ih _ (fun y hy => hl y (List.mem_cons_of_mem x hy)) ?_
    have hx : x ∈ tables := hl x (List.mem_cons_self _ _)
    cases hget : alGet acc x.section_id with
    | some l' =>
      simp only [hget]
      intro kv hkv t ht
      rcases alInsert_mem hkv with hold | hnew
      · exact hacc kv hold t ht
      · subst hnew
        simp only at ht
        rw [List.mem_append, List.mem_singleton] at ht
        rcases ht with ht | ht
        · exact hacc _ (alGet_mem hget) t ht
        · subst ht; exact hx
    | none =>
      simp only [hget]
      intro kv hkv t ht
      rw [List.mem_append, List.mem_singleton] at hkv
      rcases hkv with hkv | hkv
      · exact hacc kv hkv t ht
      · subst hkv
        rw [List.mem_singleton] at ht
        subst ht; exact hx

/-- The field-map invariant: every table-typed entry was produced by
`attach_table_field` from one of the document's table summaries. -/
def tableNameInv (tables : List TableSummary)
    (fm : List (String × FieldMeta)) : Prop :=
  ∀ kv ∈ fm, kv.2.type = some "table" →
    ∃ t ∈ tables, kv.1 = tableFieldName t ∧ kv.2 = tableFieldMeta t

theorem tableNameInv_attach {tables : List TableSummary}
    {fm : List (String × FieldMeta)} {applied : List Nat}
    {target : List SchemaField} {t : TableSummary}
    (hfm : tableNameInv tables fm) (ht : t ∈ tables) :
    tableNameInv tables (attach_table_field fm applied target t).1 := by
  intro kv hkv htype
  rcases alInsert_mem hkv with hold | hnew
  · exact hfm kv hold htype
  · subst hnew
    exact ⟨t, ht, rfl, rfl⟩

theorem tableNameInv_insert_section {tables : List TableSummary}
    {fm : List (String × FieldMeta)} {name : String} {s : Section}
    (hfm : tableNameInv tables fm) :
    tableNameInv tables
      (alInsert fm name { type := some "section", sectionF := some s }) := by
  intro kv hkv htype
  rcases alInsert_mem hkv with hold | hnew
  · exact hfm kv hold htype
  · subst hnew
    simp at htype

theorem tableNameInv_attachFold {tables : List TableSummary} :
    ∀ (ts : List TableSummary)
      (acc : List (String × FieldMeta) × List Nat × List SchemaField),
      (∀ x ∈ ts, x ∈ tables) → tableNameInv tables acc.1 →
      tableNameInv tables ((ts.foldl (fun acc t =>
        attach_table_field acc.1 acc.2.1 acc.2.2 t) acc).1) := by
  intro ts
  induction ts with
  | nil => intro acc _ hacc; exact hacc
  | cons x ts ih =>
    intro acc hts hacc
    simp only [List.foldl_cons]
    exact ih _ (fun y hy => hts y (List.mem_cons_of_mem x hy))
      (tableNameInv_attach hacc (hts x (List.mem_cons_self _ _)))

/-- C2 amended: every table-typed field `build_schema` emits is named from
the table's document-wide index — `{section_id}_table_{table_index + 1}`
(or `table_{table_index + 1}` for orphans), not from the table's 1-based
position among its own section's tables. -/
theorem build_schema_table_field_names (sections : List Section)
    (tables : List TableSummary) (kv : String × FieldMeta)
    (hkv : kv ∈ (build_schema sections tables).2)
    (htype : kv.2.type = some "table") :
    ∃ t ∈ tables, kv.1 = tableFieldName t ∧ kv.2 = tableFieldMeta t := by
  revert kv
  show tableNameInv tables (build_schema sections tables).2
  unfold build_schema
  have hsections : ∀ (ss : List Section)
      (st : List SchemaGroup × List (String × FieldMeta) × List Nat),
      tableNameInv tables st.2.1 →
      tableNameInv tables ((ss.foldl (fun st s =>
        let field_name := s.id ++ "_content"
        let fm1 := alInsert st.2.1 field_name
          { type := some "section", sectionF := some s }
        let fields0 : List SchemaField :=
          [{ name := field_name, type := "textarea", label := s.heading,
             default_text := s.default_text, polishable := true }]
        let attached := ((alGet (tablesBySection tables) (some s.id)).getD
            []).foldl
          (fun (acc : List (String × FieldMeta) × List Nat ×
              List SchemaField) t =>
            attach_table_field acc.1 acc.2.1 acc.2.2 t)
          (fm1, st.2.2, fields0)
        (st.1 ++ [{ sectionLabel := s.heading, fields := attached.2.2 }],
         attached.1, attached.2.1)) st).2.1) := by
    intro ss
    induction ss with
    | nil => intro st h; exact h
    | cons s ss ih =>
      intro st h
      simp only [List.foldl_cons]
      refine ih _ ?_
      have hgrp : ∀ x ∈ ((alGet (tablesBySection tables)
          (some s.id)).getD []), x ∈ tables := by
        cases hget : alGet (tablesBySection tables) (some s.id) with
        | none => intro x hx; simp [hget] at hx
        | some l =>
          intro x hx
          refine tablesBySection_mem tables _ (alGet_mem hget) x ?_
          simpa [hget] using hx
      exact tableNameInv_attachFold _ _ hgrp
        (tableNameInv_insert_section h)
  have horphans : ∀ (ts : List TableSummary)
      (st : List SchemaGroup × List (String × FieldMeta) × List Nat),
      (∀ x ∈ ts, x ∈ tables) → tableNameInv tables st.2.1 →
      tableNameInv tables ((ts.foldl (fun st t =>
        if t.table_index ∈ st.2.2 then st
        else
          let attached := attach_table_field st.2.1 st.2.2 [] t
          let headName := (attached.2.2.headD
            { name := "", type := "", label := "" }).name
          (st.1 ++ [{ sectionLabel := if t.label ≠ "" then t.label
                        else friendly_label_from_name headName,
                      fields := attached.2.2 }],
           attached.1, attached.2.1)) st).2.1) := by
    intro ts
    induction ts with
    | nil => intro st _ h; exact h
    | cons x ts ih =>
      intro st hts h
      simp only [List.foldl_cons]
      refine ih _ (fun y hy => hts y (List.mem_cons_of_mem x hy)) ?_
      by_cases hmem : x.table_index ∈ st.2.2
      · simpa [hmem] using h
      · simp only [hmem, if_false]
        exact tableNameInv_attach h (hts x (List.mem_cons_self _ _))
  exact horphans tables _ (fun x hx => hx)
    (hsections sections ([], [], []) (by intro kv hkv; simp at hkv))

/-- C2 counterexample: a section `s` whose only associated table is the
document's second table (`table_index = 1`) gets the field name
`s_table_2`, not `s_table_1` as the claim's per-section numbering says. -/
theorem build_schema_table_field_name_counterexample :
    ((build_schema [{ id := "s", heading := "S" }]
        [{ table_index := 0, label := "T0" },
         { table_index := 1, section_id := some "s", label := "T1" }]).1.map
      (fun g => g.fields.map (fun f => f.name)))
      = [["s_content", "s_table_2"], ["table_1"]] ∧ "s_table_2" ≠ "s_table_1" := by
  constructor
  · rfl
  · decide

/-- C2 witness for the amended theorem, at the counterexample input. -/
theorem build_schema_table_field_names_witness :
    ∃ t ∈ [({ table_index := 0, label := "T0" } : TableSummary),
           { table_index := 1, section_id := some "s", label := "T1" }],
      "s_table_2" = tableFieldName t ∧
      ({ type := some "table", table_index := some 1 } : FieldMeta)
        = tableFieldMeta t := by
  have h := build_schema_table_field_names [{ id := "s", heading := "S" }]
    [{ table_index := 0, label := "T0" },
     { table_index := 1, section_id := some "s", label := "T1" }]
    ("s_table_2", { type := some "table", table_index := some 1 })
    (by decide) (by decide)
  exact h

/-! ## C10: `apply_table_field` boundary safety -/

/-- C10: with a missing, negative or out-of-range `table_index`, the
function returns the document untouched. -/
theorem apply_table_field_bounds (doc : Doc) (fm : FieldMeta) (value : PyVal)
    (h : fm.table_index = Option.none ∨
      ∃ ti, fm.table_index = some ti ∧
        (ti < 0 ∨ (doc.tables.length : Int) ≤ ti)) :
    apply_table_field doc fm value = doc := by
  unfold apply_table_field
  rcases h with h | ⟨ti, hti, hrange⟩
  · rw [h]
  · rw [hti]
    exact if_pos hrange

/-- C10 witness: an index pointing past the only table leaves a concrete
document unchanged. -/
theorem apply_table_field_bounds_witness :
    apply_table_field
      { paragraphs := [], tables := [{ rows := [], gridCols := 2 }] }
      { type := some "table", table_index := some 5 } (PyVal.str "x")
      = { paragraphs := [], tables := [{ rows := [], gridCols := 2 }] } :=
  apply_table_field_bounds _ _ _ (Or.inr ⟨5, rfl, by decide⟩)

/-! ## C1: ordering of structured field application -/

/-- C1 (code bug): `replace_placeholders` sorts the field map by the
top-level key `start` of each field-map entry, but `build_schema` never
writes such a key — every sort key is the default `0`, the stable sort
keeps insertion order, and structured fields are applied in ascending
document order.  At this concrete metadata (two sections anchored at
offsets 1 and 3) the field anchored earliest is applied first, the
opposite of the descending-start-offset order the specification
requires. -/
theorem replace_placeholders_descending_offset_bug :
    applicationOrder
        [("alpha_content", PyVal.str "x"), ("beta_content", PyVal.str "y")]
        (build_schema
          [{ id := "alpha", heading := "Alpha", heading_index := some 0,
             content_start := some 1, content_end := some 2 },
           { id := "beta", heading := "Beta", heading_index := some 2,
             content_start := some 3, content_end := some 4 }] []).2
      = ["alpha_content", "beta_content"]
    ∧ sectionContentStartOf
        (build_schema
          [{ id := "alpha", heading := "Alpha", heading_index := some 0,
             content_start := some 1, content_end := some 2 },
           { id := "beta", heading := "Beta", heading_index := some 2,
             content_start := some 3, content_end := some 4 }] []).2
        "alpha_content" = some 1
    ∧ sectionContentStartOf
        (build_schema
          [{ id := "alpha", heading := "Alpha", heading_index := some 0,
             content_start := some 1, content_end := some 2 },
           { id := "beta", heading := "Beta", heading_index := some 2,
             content_start := some 3, content_end := some 4 }] []).2
        "beta_content" = some 3 := by
  refine ⟨rfl, rfl, rfl⟩

/-! ## Text written by the formatting-preserving replace -/

theorem strFoldlAppend (l : List String) :
    ∀ a : String, l.foldl (fun r s => r ++ s) a
      = a ++ l.foldl (fun r s => r ++ s) "" := by
  induction l with
  | nil => intro a; simp [String.append_empty]
  | cons s l ih =>
    intro a
    simp only [List.foldl_cons]
    rw [ih (a ++ s), ih ("" ++ s), String.append_assoc]
    have : ("" : String) ++ s = s := by
      have := String.append_empty s
      cases s
      rfl
    rw [this]

theorem string_empty_append (s : String) : "" ++ s = s := by
  cases s
  rfl

theorem string_join_cons (s : String) (l : List String) :
    String.join (s :: l) = s ++ String.join l := by
  show (s :: l).foldl (fun r s => r ++ s) "" = _
  simp only [List.foldl_cons]
  rw [strFoldlAppend l ("" ++ s), string_empty_append]
  rfl

theorem apply_run_formatting_text (r : Run) (f : Option RunFmt) :
    (apply_run_formatting r f).text = r.text := by
  unfold apply_run_formatting
  cases f with
  | none => rfl
  | some f =>
    by_cases h : f.isEmptyDict = true
    · simp [h]
    · simp [h]

/-- The runs written by the markdown pass carry exactly the segment texts. -/
theorem markdown_runs_text (segs : List (String × Bool)) (rf : Option RunFmt) :
    String.join ((segs.filterMap (fun seg =>
      if seg.1 = "" then Option.none
      else
        let r := apply_run_formatting (newRun seg.1) rf
        some (if seg.2 then { r with bold := some true } else r))).map
        Run.text)
      = String.join (segs.map (fun seg => seg.1)) := by
  induction segs with
  | nil => rfl
  | cons seg segs ih =>
    by_cases h : seg.1 = ""
    · simp only [List.filterMap_cons, if_pos h]
      rw [ih, List.map_cons, string_join_cons, h]
      exact (string_empty_append _).symm
    · simp only [List.filterMap_cons, if_neg h]
      rw [List.map_cons, string_join_cons, List.map_cons, string_join_cons, ih]
      refine congrArg (· ++ String.join (segs.map (fun seg => seg.1))) ?_
      cases hb : seg.2 with
      | true => exact apply_run_formatting_text (newRun seg.1) rf
      | false => exact apply_run_formatting_text (newRun seg.1) rf

theorem apply_paragraph_properties_text (q : Paragraph) (x : Option String) :
    (apply_paragraph_properties q x).text = q.text := by
  unfold apply_paragraph_properties
  split <;> rfl

theorem apply_list_properties_text (q : Paragraph) (x : Option String) :
    (apply_list_properties q x).text = q.text := by
  unfold apply_list_properties
  split <;> rfl

/-- The text produced by the formatting-preserving replace is the markdown
rendering of the input (delimiters consumed, all else verbatim). -/
theorem replace_paragraph_text_text (p : Paragraph) (t : String)
    (rf : Option RunFmt) (px nx : Option String) :
    (replace_paragraph_text p t rf px nx).text = markdownText t := by
  unfold replace_paragraph_text
  rw [apply_list_properties_text, apply_paragraph_properties_text]
  by_cases ht : t = ""
  · simp only [ht, ne_eq, not_true_eq_false, if_false]
    rfl
  · rw [if_pos ht]
    show String.join (List.map Run.text ([] ++ _)) = _
    rw [List.nil_append]
    exact markdown_runs_text (markdownSegments t) _

/-- The text a cell holds after `set_cell_text`: one paragraph whose text is
the markdown rendering of the value's string form. -/
theorem set_cell_text_text (cell : Cell) (v : PyVal) :
    cellText (set_cell_text cell v)
      = markdownText (if v.isNone then "" else v.pyStr) := by
  unfold set_cell_text cellText
  rw [List.map_cons, List.map_nil]
  have hsingle : ∀ x : String, String.intercalate "\n" [x] = x := fun x => rfl
  rw [hsingle]
  exact replace_paragraph_text_text _ _ _ _ _

/-! ## C7: row growth / shrinkage of `apply_table_field` -/

theorem growRows_eq (g : Nat) :
    ∀ (k : Nat) (rows : List TableRow),
      growRows g rows k = rows ++ List.replicate k (newTableRow g) := by
  intro k
  induction k with
  | zero => intro rows; simp [growRows]
  | succ k ih =>
    intro rows
    rw [growRows, ih, List.replicate_succ]
    simp

theorem shrinkRows_eq :
    ∀ (k : Nat) (rows : List TableRow),
      shrinkRows rows k = rows.take (rows.length - k) := by
  intro k
  induction k with
  | zero => intro rows; simp [shrinkRows]
  | succ k ih =>
    intro rows
    rw [shrinkRows, ih, List.dropLast_eq_take, List.take_take,
      List.length_take]
    congr 1
    omega

/-- Net effect of the two row loops: append fresh rows up to the target,
then trim to the target. -/
theorem table_rows_resize (g target : Nat) (rows : List TableRow) :
    shrinkRows (growRows g rows (target - rows.length))
        ((growRows g rows (target - rows.length)).length - target)
      = (rows ++ List.replicate (target - rows.length) (newTableRow g)).take
          target := by
  rw [growRows_eq, shrinkRows_eq]
  congr 1
  simp only [List.length_append, List.length_replicate]
  omega

/-- A bold-delimiter-free text passes through the markdown scanner as one
literal segment. -/
theorem mdGo_no_delims :
    ∀ (fuel : Nat) (acc l : List Char),
      (∀ ch ∈ l, ¬(ch = '*' ∨ ch = '_')) →
      mdGo fuel acc l
        = if (acc ++ l).isEmpty then [] else [(acc ++ l, false)] := by
  intro fuel
  induction fuel with
  | zero => intro acc l h; rfl
  | succ fuel ih =>
    intro acc l h
    cases l with
    | nil => simp [mdGo]
    | cons c rest =>
      have hc : ¬(c = '*' ∨ c = '_') := h c (List.mem_cons_self _ _)
      simp only [mdGo]
      rw [if_neg hc, ih (acc ++ [c]) rest
        (fun ch hch => h ch (List.mem_cons_of_mem _ hch))]
      simp

/-- A marker-free string is one literal segment. -/
theorem markdownSegments_no_delims (s : String)
    (h : ∀ ch ∈ s.data, ¬(ch = '*' ∨ ch = '_')) :
    markdownSegments s = [(s, false)] := by
  unfold markdownSegments
  rw [mdGo_no_delims s.data.length [] s.data h, List.nil_append]
  by_cases hs : s.data.isEmpty = true
  · rw [if_pos hs]
    rfl
  · rw [if_neg hs]
    rfl

/-- Marker-free strings render to themselves. -/
theorem markdownText_eq_self (s : String)
    (h : ∀ ch ∈ s.data, ¬(ch = '*' ∨ ch = '_')) : markdownText s = s := by
  unfold markdownText
  rw [markdownSegments_no_delims s h, List.map_cons, List.map_nil,
    string_join_cons]
  exact String.append_empty s

theorem tableValueRows_length (g : Nat) (value : PyVal) :
    (tableValueRows g value).length = pyRowCount value := by
  cases value <;> simp [tableValueRows, pyRowCount]

theorem getD_replicate_self {α : Type} (a : α) (n c : Nat) :
    (List.replicate n a).getD c a = a := by
  by_cases h : c < n
  · rw [List.getD_eq_getElem _ _ (by simpa using h), List.getElem_replicate]
  · rw [List.getD_eq_default]
    simpa using h

/-- C7: `apply_table_field` resizes the table to exactly `max k 1` rows
(`k` = supplied row count for a list, `1` for a bare scalar), appending
fresh grid-width rows when growing and trimming trailing rows when
shrinking, and overwrites every remaining cell's text with the markdown
rendering of the corresponding supplied value — the empty string where no
value is supplied. -/
theorem apply_table_field_resizes (doc : Doc) (fm : FieldMeta)
    (value : PyVal) (ti : Int) (hti : fm.table_index = some ti)
    (h0 : 0 ≤ ti) (hlt : ti.toNat < doc.tables.length) :
    (((apply_table_field doc fm value).tables.getD ti.toNat
        { rows := [], gridCols := 0 }).rows.length
      = max (pyRowCount value) 1)
    ∧ (((apply_table_field doc fm value).tables.getD ti.toNat
        { rows := [], gridCols := 0 }).rows.map (fun r => r.cells.length)
      = (((doc.tables.getD ti.toNat { rows := [], gridCols := 0 }).rows.map
            (fun r => r.cells.length))
          ++ List.replicate
            (max (pyRowCount value) 1
              - (doc.tables.getD ti.toNat
                  { rows := [], gridCols := 0 }).rows.length)
            (doc.tables.getD ti.toNat
              { rows := [], gridCols := 0 }).gridCols).take
          (max (pyRowCount value) 1))
    ∧ ∀ r c : Nat,
        r < ((apply_table_field doc fm value).tables.getD ti.toNat
            { rows := [], gridCols := 0 }).rows.length →
        c < (((apply_table_field doc fm value).tables.getD ti.toNat
            { rows := [], gridCols := 0 }).rows.getD r
            { cells := [] }).cells.length →
        cellText ((((apply_table_field doc fm value).tables.getD ti.toNat
            { rows := [], gridCols := 0 }).rows.getD r
            { cells := [] }).cells.getD c { paragraphs := [] })
          = markdownText
            (if (((tableValueRows
                (doc.tables.getD ti.toNat
                  { rows := [], gridCols := 0 }).gridCols value).getD r
                []).getD c (PyVal.str "")).isNone then ""
             else (((tableValueRows
                (doc.tables.getD ti.toNat
                  { rows := [], gridCols := 0 }).gridCols value).getD r
                []).getD c (PyVal.str "")).pyStr) := by
  have hcond : ¬(ti < 0 ∨ (doc.tables.length : Int) ≤ ti) := by omega
  have happly : apply_table_field doc fm value
      = (let table := doc.tables.getD ti.toNat { rows := [], gridCols := 0 }
         let value_rows := tableValueRows table.gridCols value
         let target_rows := max value_rows.length 1
         let rows1 := growRows table.gridCols table.rows
           (target_rows - table.rows.length)
         let rows2 := shrinkRows rows1 (rows1.length - target_rows)
         let max_columns := rows2.foldl (fun m r => max m r.cells.length) 0
         let rows3 := rows2.enum.map (fun rrow =>
           let row_values := if rrow.1 < value_rows.length
             then value_rows.getD rrow.1 []
             else List.replicate max_columns (PyVal.str "")
           { cells := rrow.2.cells.enum.map (fun ccell =>
               set_cell_text ccell.2 (row_values.getD ccell.1
                 (PyVal.str ""))) })
         let newTable : Table :=
           { rows := rows3, gridCols := table.gridCols }
         { doc with tables := doc.tables.set ti.toNat newTable }) := by
    unfold apply_table_field
    rw [hti]
    exact if_neg hcond
  rw [happly]
  simp only []
  set table := doc.tables.getD ti.toNat { rows := [], gridCols := 0 }
    with htable
  set value_rows := tableValueRows table.gridCols value with hvr
  set target_rows := max value_rows.length 1 with htr
  have hktr : target_rows = max (pyRowCount value) 1 := by
    rw [htr, hvr, tableValueRows_length]
  set rows1 := growRows table.gridCols table.rows
    (target_rows - table.rows.length) with hrows1
  set rows2 := shrinkRows rows1 (rows1.length - target_rows) with hrows2def
  have hrows2 : rows2
      = (table.rows ++ List.replicate (target_rows - table.rows.length)
          (newTableRow table.gridCols)).take target_rows := by
    rw [hrows2def, hrows1]
    exact table_rows_resize table.gridCols target_rows table.rows
  have hlen2 : rows2.length = target_rows := by
    rw [hrows2, List.length_take, List.length_append,
      List.length_replicate]
    omega
  set max_columns := rows2.foldl (fun m r => max m r.cells.length) 0
    with hmc
  set rows3 := rows2.enum.map (fun rrow =>
    { cells := rrow.2.cells.enum.map (fun ccell =>
        set_cell_text ccell.2
          ((if rrow.1 < value_rows.length
            then value_rows.getD rrow.1 []
            else List.replicate max_columns (PyVal.str "")).getD ccell.1
            (PyVal.str ""))) : TableRow })
    with hrows3
  have hgetset : ((doc.tables.set ti.toNat
      { rows := rows3, gridCols := table.gridCols }).getD ti.toNat
      { rows := [], gridCols := 0 })
      = { rows := rows3, gridCols := table.gridCols } := by
    rw [List.getD_eq_getElem _ _ (by simpa using hlt)]
    exact List.getElem_set_self _
  rw [hgetset]
  have hlen3 : rows3.length = target_rows := by
    rw [hrows3, List.length_map, List.enum_length, hlen2]
  refine ⟨?_, ?_, ?_⟩
  · show rows3.length = _
    rw [hlen3, hktr]
  · show rows3.map (fun r => r.cells.length) = _
    rw [← hktr]
    have hmap23 : rows3.map (fun r => r.cells.length)
        = rows2.map (fun r => r.cells.length) := by
      rw [hrows3, List.map_map]
      calc rows2.enum.map ((fun r => r.cells.length) ∘ fun rrow =>
            ({ cells := rrow.2.cells.enum.map (fun ccell =>
                set_cell_text ccell.2
                  ((if rrow.1 < value_rows.length
                    then value_rows.getD rrow.1 []
                    else List.replicate max_columns (PyVal.str "")).getD
                    ccell.1 (PyVal.str ""))) } : TableRow))
          = rows2.enum.map (fun rrow => rrow.2.cells.length) :=
            List.map_congr_left (fun rrow _ => by
              simp [Function.comp, List.enum_length])
        _ = rows2.map (fun r => r.cells.length) := by
            rw [show (fun rrow : Nat × TableRow => rrow.2.cells.length)
                = ((fun r : TableRow => r.cells.length) ∘ Prod.snd) from rfl,
              ← List.map_map, List.enum_map_snd]
    rw [hmap23, hrows2, List.map_take, List.map_append, List.map_replicate]
    simp [newTableRow]
  · intro r c hr hc
    show cellText ((rows3.getD r { cells := [] }).cells.getD c
        { paragraphs := [] }) = _
    have hr' : r < rows3.length := hr
    have hr2 : r < rows2.length := by omega
    have hrowD : rows3.getD r { cells := [] }
        = ({ cells := (rows2[r]).cells.enum.map
              (fun ccell => set_cell_text ccell.2
                ((if r < value_rows.length
                  then value_rows.getD r []
                  else List.replicate max_columns (PyVal.str "")).getD
                  ccell.1 (PyVal.str ""))) } : TableRow) := by
      rw [List.getD_eq_getElem _ _ hr']
      rw [List.getElem_of_eq hrows3 hr']
      simp only [List.getElem_map, List.getElem_enum]
    have hc2 : c < (rows2[r]).cells.length := by
      rw [hrowD] at hc
      simpa [List.enum_length] using hc
    have hcm : c < ((rows2[r]).cells.enum.map
        (fun ccell => set_cell_text ccell.2
          ((if r < value_rows.length
            then value_rows.getD r []
            else List.replicate max_columns (PyVal.str "")).getD
            ccell.1 (PyVal.str "")))).length := by
      simpa [List.enum_length] using hc2
    have hcells : ((rows2[r]).cells.enum.map
        (fun ccell => set_cell_text ccell.2
          ((if r < value_rows.length
            then value_rows.getD r []
            else List.replicate max_columns (PyVal.str "")).getD
            ccell.1 (PyVal.str "")))).getD c { paragraphs := [] }
        = set_cell_text ((rows2[r]).cells[c])
            ((if r < value_rows.length
              then value_rows.getD r []
              else List.replicate max_columns (PyVal.str "")).getD c
              (PyVal.str "")) := by
      rw [List.getD_eq_getElem _ _ hcm]
      simp only [List.getElem_map, List.getElem_enum]
    have hval : (if r < value_rows.length
        then value_rows.getD r []
        else List.replicate max_columns (PyVal.str "")).getD c (PyVal.str "")
        = (value_rows.getD r []).getD c (PyVal.str "") := by
      by_cases hrk : r < value_rows.length
      · rw [if_pos hrk]
      · have h1 : value_rows.getD r [] = [] := by
          rw [List.getD_eq_default]
          omega
        rw [if_neg hrk, getD_replicate_self, h1]
        rfl
    rw [hrowD, hcells, set_cell_text_text, hval]

/-- C7 witness: a 2-row value applied to a concrete 1-row, 2-column table
yields exactly 2 rows with the supplied texts. -/
theorem apply_table_field_resizes_witness :
    (((apply_table_field
        { paragraphs := [],
          tables :=
            [{ rows :=
                 [{ cells :=
                      [{ paragraphs := [{ runs := [{ text := "old" }] }] },
                       { paragraphs :=
                           [{ runs := [{ text := "old2" }] }] }] }],
               gridCols := 2 }] }
        { type := some "table", table_index := some 0 }
        (PyVal.list [PyVal.list [PyVal.str "a", PyVal.str "b"],
          PyVal.list [PyVal.str "c"]])).tables.getD 0
      { rows := [], gridCols := 0 }).rows.length
    = max (pyRowCount (PyVal.list [PyVal.list [PyVal.str "a", PyVal.str "b"],
        PyVal.list [PyVal.str "c"]])) 1)
    ∧ cellText ((((apply_table_field
        { paragraphs := [],
          tables :=
            [{ rows :=
                 [{ cells :=
                      [{ paragraphs := [{ runs := [{ text := "old" }] }] },
                       { paragraphs :=
                           [{ runs := [{ text := "old2" }] }] }] }],
               gridCols := 2 }] }
        { type := some "table", table_index := some 0 }
        (PyVal.list [PyVal.list [PyVal.str "a", PyVal.str "b"],
          PyVal.list [PyVal.str "c"]])).tables.getD 0
      { rows := [], gridCols := 0 }).rows.getD 1
      { cells := [] }).cells.getD 1 { paragraphs := [] }) = "" := by
  constructor
  · exact (apply_table_field_resizes _ _ _ 0 rfl (by decide) (by decide)).1
  · have h := (apply_table_field_resizes
      { paragraphs := [],
        tables :=
          [{ rows :=
               [{ cells :=
                    [{ paragraphs := [{ runs := [{ text := "old" }] }] },
                     { paragraphs :=
                         [{ runs := [{ text := "old2" }] }] }] }],
             gridCols := 2 }] }
      { type := some "table", table_index := some 0 }
      (PyVal.list [PyVal.list [PyVal.str "a", PyVal.str "b"],
        PyVal.list [PyVal.str "c"]])
      0 rfl (by decide) (by decide)).2.2 1 1 (by decide) (by decide)
    rw [show ((0 : Int).toNat) = 0 from rfl] at h
    rw [h]
    decide

/-! ## Stable sort facts -/

theorem insertDescBy_perm {α : Type} (key : α → Int) (x : α) (l : List α) :
    (insertDescBy key x l).Perm (x :: l) := by
  induction l with
  | nil => exact List.Perm.refl _
  | cons y ys ih =>
    unfold insertDescBy
    by_cases h : key y ≤ key x
    · rw [if_pos h]
    · rw [if_neg h]
      exact (ih.cons y).trans (List.Perm.swap x y ys)

theorem pySortedDescBy_perm {α : Type} (key : α → Int) (l : List α) :
    (pySortedDescBy key l).Perm l := by
  induction l with
  | nil => exact List.Perm.refl _
  | cons x xs ih =>
    exact (insertDescBy_perm key x _).trans (ih.cons x)

theorem insertDescBy_sorted {α : Type} (key : α → Int) (x : α) (l : List α)
    (h : l.Pairwise (fun a b => key b ≤ key a)) :
    (insertDescBy key x l).Pairwise (fun a b => key b ≤ key a) := by
  induction l with
  | nil => simp [insertDescBy]
  | cons y ys ih =>
    rw [List.pairwise_cons] at h
    unfold insertDescBy
    by_cases hxy : key y ≤ key x
    · rw [if_pos hxy, List.pairwise_cons]
      refine ⟨?_, List.pairwise_cons.mpr h⟩
      intro b hb
      rcases List.mem_cons.mp hb with rfl | hb
      · exact hxy
      · exact le_trans (h.1 b hb) hxy
    · rw [if_neg hxy, List.pairwise_cons]
      refine ⟨?_, ih h.2⟩
      intro b hb
      have hmem := (insertDescBy_perm key x ys).mem_iff.mp hb
      rcases List.mem_cons.mp hmem with rfl | hb2
      · exact le_of_not_le hxy
      · exact h.1 b hb2

theorem pySortedDescBy_sorted {α : Type} (key : α → Int) (l : List α) :
    (pySortedDescBy key l).Pairwise (fun a b => key b ≤ key a) := by
  induction l with
  | nil => simp [pySortedDescBy]
  | cons x xs ih => exact insertDescBy_sorted key x _ ih

/-! ## C9: absent checkbox options are kept and rewritten -/

theorem take_set_of_le {α : Type} (l : List α) (m j : Nat) (x : α)
    (h : j ≤ m) : (l.set m x).take j = l.take j := by
  refine List.ext_getElem (by simp) ?_
  intro i h1 h2
  rw [List.getElem_take, List.getElem_take, List.getElem_set_ne]
  intro hmi
  rw [List.length_take] at h2
  omega

theorem take_eraseIdx_of_le {α : Type} (l : List α) (m j : Nat)
    (hm : m < l.length) (h : j ≤ m) :
    (l.eraseIdx m).take j = l.take j := by
  rw [List.eraseIdx_eq_take_drop_succ, List.take_append_eq_append_take,
    List.take_take, List.length_take]
  have h1 : min j m = j := by omega
  have h2 : j - min m l.length = 0 := by omega
  rw [h1, h2, List.take_zero, List.append_nil]

/-- Options anchored strictly after body index `j` never touch the prefix
`0..j`, which also stays long enough. -/
theorem checkboxFold_prefix (entries : List (PyVal × (Bool × PyVal))) :
    ∀ (opts : List CheckOption) (d : Doc) (j : Nat),
      (∀ a ∈ opts, (j : Int) < a.paragraph_index.getD 0) →
      j < d.paragraphs.length →
      ((opts.foldl (checkboxStep entries) d).paragraphs.take (j + 1)
          = d.paragraphs.take (j + 1))
        ∧ j < (opts.foldl (checkboxStep entries) d).paragraphs.length := by
  intro opts
  induction opts with
  | nil => intro d j _ hj; exact ⟨rfl, hj⟩
  | cons o rest ih =>
    intro d j hgt hj
    simp only [List.foldl_cons]
    have ho := hgt o (List.mem_cons_self _ _)
    have hstep : (checkboxStep entries d o).paragraphs.take (j + 1)
        = d.paragraphs.take (j + 1)
        ∧ j < (checkboxStep entries d o).paragraphs.length := by
      unfold checkboxStep
      by_cases hb : (d.paragraphs.length : Int) ≤ o.paragraph_index.getD 0
          ∨ o.paragraph_index.getD 0 < 0
      · rw [if_pos hb]; exact ⟨rfl, hj⟩
      · rw [if_neg hb]
        push_neg at hb
        have hij : j + 1 ≤ (o.paragraph_index.getD 0).toNat := by omega
        have hilen : (o.paragraph_index.getD 0).toNat < d.paragraphs.length := by
          omega
        cases hE : ((checkboxEntryFor entries o.value).getD
            (true, PyVal.str "")).1 with
        | false =>
          simp only [hE, Bool.not_false, if_true]
          constructor
          · rw [take_eraseIdx_of_le _ _ _ (by simpa using hilen) hij,
              take_set_of_le _ _ _ _ hij]
          · rw [List.length_eraseIdx]
            simp only [List.length_set]
            rw [if_pos hilen]
            omega
        | true =>
          simp only [hE, Bool.not_true, if_false]
          constructor
          · exact take_set_of_le _ _ _ _ hij
          · simpa using hj
    obtain ⟨h1, h2⟩ := ih (checkboxStep entries d o) j
      (fun a ha => hgt a (List.mem_cons_of_mem _ ha)) hstep.2
    exact ⟨h1.trans hstep.1, h2⟩

theorem getD_set_ne {α : Type} (l : List α) (i p : Nat) (v d0 : α)
    (h : i ≠ p) (hp : p < l.length) :
    (l.set i v).getD p d0 = l.getD p d0 := by
  rw [List.getD_eq_getElem _ _ (by simpa using hp),
    List.getElem_set_ne h, List.getD_eq_getElem _ _ hp]

/-- A paragraph sitting strictly after every remaining option's anchor
survives the rest of the loop. -/
theorem checkboxFold_mem (entries : List (PyVal × (Bool × PyVal))) :
    ∀ (opts : List CheckOption) (d : Doc) (p : Nat) (x : Paragraph),
      p < d.paragraphs.length →
      d.paragraphs.getD p emptyParagraph = x →
      (∀ a ∈ opts, a.paragraph_index.getD 0 < (p : Int)) →
      opts.Pairwise (fun a b =>
        b.paragraph_index.getD 0 < a.paragraph_index.getD 0) →
      x ∈ (opts.foldl (checkboxStep entries) d).paragraphs := by
  intro opts
  induction opts with
  | nil =>
    intro d p x hp hx _ _
    rw [List.getD_eq_getElem _ _ hp] at hx
    rw [← hx]
    exact List.getElem_mem hp
  | cons o rest ih =>
    intro d p x hp hx hlt hdec
    rw [List.pairwise_cons] at hdec
    have hop := hlt o (List.mem_cons_self _ _)
    simp only [List.foldl_cons]
    unfold checkboxStep
    by_cases hb : (d.paragraphs.length : Int) ≤ o.paragraph_index.getD 0
        ∨ o.paragraph_index.getD 0 < 0
    · rw [if_pos hb]
      exact ih d p x hp hx (fun a ha => hlt a (List.mem_cons_of_mem _ ha))
        hdec.2
    · rw [if_neg hb]
      push_neg at hb
      have hip : (o.paragraph_index.getD 0).toNat < p := by omega
      have hilen : (o.paragraph_index.getD 0).toNat < d.paragraphs.length := by
        omega
      cases hE : ((checkboxEntryFor entries o.value).getD
          (true, PyVal.str "")).1 with
      | false =>
        simp only [hE, Bool.not_false, if_true]
        refine ih _ (p - 1) x ?_ ?_ ?_ ?_
        · rw [List.length_eraseIdx]
          simp only [List.length_set]
          rw [if_pos (by simpa using hilen)]
          omega
        · have hlen' : p - 1 < ((d.paragraphs.set
              (o.paragraph_index.getD 0).toNat
              (if strTruthy o.style then
                { d.paragraphs.getD (o.paragraph_index.getD 0).toNat
                    emptyParagraph with styleName := o.style.getD "" }
               else d.paragraphs.getD (o.paragraph_index.getD 0).toNat
                 emptyParagraph)).eraseIdx
              (o.paragraph_index.getD 0).toNat).length := by
            rw [List.length_eraseIdx]
            simp only [List.length_set]
            rw [if_pos (by simpa using hilen)]
            omega
          rw [List.getD_eq_getElem _ _ hlen', List.getElem_eraseIdx]
          rw [dif_neg (show ¬(p - 1 < (o.paragraph_index.getD 0).toNat)
            from by omega)]
          have hps : p - 1 + 1 = p := by omega
          simp only [hps]
          rw [List.getElem_set_ne
            (show (o.paragraph_index.getD 0).toNat ≠ p from by omega)]
          rw [← List.getD_eq_getElem d.paragraphs emptyParagraph hp]
          exact hx
        · intro a ha
          have h1 := hdec.1 a ha
          omega
        · exact hdec.2
      | true =>
        simp only [hE, Bool.not_true, Bool.false_eq_true, if_false]
        refine ih _ p x (by simpa using hp) ?_
          (fun a ha => hlt a (List.mem_cons_of_mem _ ha)) hdec.2
        rw [getD_set_ne _ _ _ _ _
          (show (o.paragraph_index.getD 0).toNat ≠ p from by omega) hp]
        exact hx

/-- The step taken for an option whose value has no entry: selected by
default, rewritten in place with its stored text. -/
theorem checkboxStep_absent (entries : List (PyVal × (Bool × PyVal)))
    (d : Doc) (o : CheckOption) (j : Nat)
    (hj : o.paragraph_index = some ((j : Int)))
    (hlen : j < d.paragraphs.length)
    (habsent : checkboxEntryFor entries o.value = Option.none) :
    checkboxStep entries d o
      = { d with
          paragraphs := d.paragraphs.set j
                          (let paragraph := if strTruthy o.style
                              then { d.paragraphs.getD j emptyParagraph with
                                     styleName := o.style.getD "" }
                              else d.paragraphs.getD j emptyParagraph
                           replace_paragraph_text paragraph (o.text.getD "")
                             (some (capture_run_formatting paragraph))
                             (capture_paragraph_properties paragraph)
                             (capture_list_properties paragraph)) } := by
  unfold checkboxStep
  rw [hj]
  simp only [Option.getD_some]
  rw [if_neg (show ¬((d.paragraphs.length : Int) ≤ ((j : Nat) : Int)
      ∨ ((j : Nat) : Int) < 0) from by omega)]
  rw [habsent]
  rfl

theorem getD_of_take_eq {α : Type} (l1 l2 : List α) (j : Nat) (d : α)
    (h : l1.take (j + 1) = l2.take (j + 1)) (h1 : j < l1.length)
    (h2 : j < l2.length) : l1.getD j d = l2.getD j d := by
  rw [List.getD_eq_getElem _ _ h1, List.getD_eq_getElem _ _ h2]
  have ht1 : j < (l1.take (j + 1)).length := by
    rw [List.length_take]; omega
  have ht2 : j < (l2.take (j + 1)).length := by
    rw [List.length_take]; omega
  have e1 : l1[j] = (l1.take (j + 1))[j] := by
    rw [List.getElem_take]
  have e2 : l2[j] = (l2.take (j + 1))[j] := by
    rw [List.getElem_take]
  rw [e1, e2]
  exact List.getElem_of_eq h _

/-- C9: an option whose value is absent from the supplied entries is
treated as selected: its paragraph (style reapplied) is kept — not
deleted — and rewritten with the option's original stored text
`option.get("text", "")` via the formatting-preserving replace. -/
theorem apply_checkbox_field_keeps_absent (doc : Doc) (fm : FieldMeta)
    (value : PyVal) (o : CheckOption) (j : Nat)
    (ho : o ∈ fm.options) (hj : o.paragraph_index = some ((j : Int)))
    (hjlen : j < doc.paragraphs.length)
    (hdistinct : fm.options.Pairwise
      (fun a b => a.paragraph_index ≠ b.paragraph_index))
    (hidx : ∀ a ∈ fm.options,
      ∃ ja : Nat, a.paragraph_index = some ((ja : Int)))
    (habsent : checkboxEntryFor (checkboxEntries value) o.value
      = Option.none) :
    (let paragraph := if strTruthy o.style
        then { doc.paragraphs.getD j emptyParagraph with
               styleName := o.style.getD "" }
        else doc.paragraphs.getD j emptyParagraph
     replace_paragraph_text paragraph (o.text.getD "")
       (some (capture_run_formatting paragraph))
       (capture_paragraph_properties paragraph)
       (capture_list_properties paragraph))
      ∈ (apply_checkbox_field doc fm value).paragraphs := by
  unfold apply_checkbox_field
  have hperm := pySortedDescBy_perm
    (fun o : CheckOption => o.paragraph_index.getD 0) fm.options
  have hsorted := pySortedDescBy_sorted
    (fun o : CheckOption => o.paragraph_index.getD 0) fm.options
  have hdistS : (pySortedDescBy
      (fun o : CheckOption => o.paragraph_index.getD 0)
      fm.options).Pairwise
      (fun a b => a.paragraph_index ≠ b.paragraph_index) :=
    (hperm.pairwise_iff (fun h => h.symm)).mpr hdistinct
  have hidxS : ∀ a ∈ pySortedDescBy
      (fun o : CheckOption => o.paragraph_index.getD 0) fm.options,
      ∃ ja : Nat, a.paragraph_index = some ((ja : Int)) :=
    fun a ha => hidx a (hperm.mem_iff.mp ha)
  have hstrict : (pySortedDescBy
      (fun o : CheckOption => o.paragraph_index.getD 0)
      fm.options).Pairwise (fun a b =>
        b.paragraph_index.getD 0 < a.paragraph_index.getD 0) := by
    refine (hsorted.and hdistS).imp_of_mem ?_
    intro a b ha hb hab
    obtain ⟨ja, hja⟩ := hidxS a ha
    obtain ⟨jb, hjb⟩ := hidxS b hb
    rw [hja, hjb] at hab ⊢
    simp only [Option.getD_some] at hab ⊢
    have hne : (jb : Int) ≠ (ja : Int) := by
      intro hEq
      exact hab.2 (by rw [hEq])
    have hle := hab.1
    omega
  have hoS : o ∈ pySortedDescBy
      (fun o : CheckOption => o.paragraph_index.getD 0) fm.options :=
    hperm.mem_iff.mpr ho
  obtain ⟨S1, S2, hsplit⟩ := List.append_of_mem hoS
  rw [hsplit, List.foldl_append, List.foldl_cons]
  rw [hsplit, List.pairwise_append] at hstrict
  obtain ⟨hS1pair, hoS2pair, hcross⟩ := hstrict
  rw [List.pairwise_cons] at hoS2pair
  have hgt1 : ∀ a ∈ S1, (j : Int) < a.paragraph_index.getD 0 := by
    intro a ha
    have h1 := hcross a ha o (List.mem_cons_self _ _)
    rw [hj] at h1
    simpa using h1
  obtain ⟨hpre, hlen1⟩ := checkboxFold_prefix (checkboxEntries value) S1 doc j
    hgt1 hjlen
  have hD1j : (S1.foldl (checkboxStep (checkboxEntries value))
      doc).paragraphs.getD j emptyParagraph
      = doc.paragraphs.getD j emptyParagraph :=
    getD_of_take_eq _ _ j emptyParagraph hpre hlen1 hjlen
  have hstep := checkboxStep_absent (checkboxEntries value)
    (S1.foldl (checkboxStep (checkboxEntries value)) doc) o j hj hlen1 habsent
  rw [hstep, hD1j]
  refine checkboxFold_mem (checkboxEntries value) S2 _ j _ ?_ ?_ ?_ hoS2pair.2
  · simpa using hlen1
  · rw [List.getD_eq_getElem _ _ (by simpa using hlen1)]
    exact List.getElem_set_self _
  · intro b hb
    have h1 := hoS2pair.1 b hb
    rw [hj] at h1
    simpa using h1

/-- Concrete instance of C9: option "a" (paragraph 0, stored text "Alpha")
has no entry in a payload that only mentions "b", so paragraph 0 survives,
rewritten with "Alpha". -/
theorem apply_checkbox_field_keeps_absent_witness :
    (let doc : Doc := { paragraphs :=
        [{ runs := [{ text := "Alpha" }] },
         { runs := [{ text := "Mid" }] },
         { runs := [{ text := "Beta" }] }] }
     let o : CheckOption :=
       { value := "a", paragraph_index := some 0, text := some "Alpha" }
     let fm : FieldMeta := { options :=
        [o, { value := "b", paragraph_index := some 2, text := some "B" }] }
     let value : PyVal := PyVal.list
       [PyVal.dict [("value", PyVal.str "b"), ("selected", PyVal.bool false)]]
     (let paragraph := if strTruthy o.style
         then { doc.paragraphs.getD 0 emptyParagraph with
                styleName := o.style.getD "" }
         else doc.paragraphs.getD 0 emptyParagraph
      replace_paragraph_text paragraph (o.text.getD "")
        (some (capture_run_formatting paragraph))
        (capture_paragraph_properties paragraph)
        (capture_list_properties paragraph))
       ∈ (apply_checkbox_field doc fm value).paragraphs) := by
  exact apply_checkbox_field_keeps_absent _ _ _ _ 0
    (List.mem_cons_self _ _) rfl (by decide) (by decide)
    (by intro a ha
        rcases List.mem_cons.mp ha with h | h
        · subst h; exact ⟨0, rfl⟩
        · rcases List.mem_cons.mp h with h2 | h2
          · subst h2; exact ⟨2, rfl⟩
          · cases h2)
    rfl

/-! ## C5: the "skip rewrite" branch of apply_textarea_field -/

theorem eraseFold_take {α : Type} (L : List Nat) (s : Nat) :
    ∀ ps : List α, (∀ i ∈ L, s < i) →
      (L.foldl (fun acc idx => if idx < acc.length then acc.eraseIdx idx
          else acc) ps).take (s + 1)
        = ps.take (s + 1) := by
  induction L with
  | nil => intro ps _; rfl
  | cons i L ih =>
    intro ps h
    rw [List.foldl_cons]
    rw [ih _ (fun a ha => h a (List.mem_cons_of_mem _ ha))]
    by_cases hb : i < ps.length
    · rw [if_pos hb]
      exact take_eraseIdx_of_le ps i (s + 1) hb
        (by have := h i (List.mem_cons_self _ _); omega)
    · rw [if_neg hb]

theorem deleteDescRange_take (ps : List Paragraph) (s e : Nat) :
    (deleteDescRange ps s e).take (s + 1) = ps.take (s + 1) := by
  unfold deleteDescRange
  refine eraseFold_take _ s ps ?_
  intro i hi
  rw [List.mem_reverse] at hi
  have := List.mem_range'_1.mp hi
  omega

theorem paragraph_meta_for_nil (i : Nat) (bt : String) :
    paragraph_meta_for [] i (some bt) = {} := by
  unfold paragraph_meta_for
  cases h : text_looks_like_list_item bt <;> simp [h]

/-- C5 amended: when one block is expected and the sole block's stripped
text equals the first original paragraph's stripped text, the branch still
calls `replace_paragraph_text`: the paragraph is rebuilt with the original
STRIPPED text (element replaced, plain text preserved modulo stripping and
markdown markers), not left unchanged. -/
theorem apply_textarea_field_skip_rewrites (doc : Doc) (fm : FieldMeta)
    (value : PyVal) (j : Nat) (b : String)
    (hmetas : fm.paragraphs = Option.none)
    (hstart : fm.start = some ((j : Nat) : Int))
    (hj : j < doc.paragraphs.length)
    (hone : split_paragraph_blocks
      (if value.isNone then "" else value.pyStr) Option.none = [b])
    (hbne : pyStrip b ≠ "")
    (hbeq : pyStrip b = pyStrip (doc.paragraphs.getD j emptyParagraph).text) :
    (apply_textarea_field doc fm value).paragraphs.getD j emptyParagraph
      = replace_paragraph_text (doc.paragraphs.getD j emptyParagraph)
          (pyStrip (doc.paragraphs.getD j emptyParagraph).text)
          Option.none Option.none Option.none
    ∧ ((apply_textarea_field doc fm value).paragraphs.getD j
          emptyParagraph).text
      = markdownText (pyStrip (doc.paragraphs.getD j emptyParagraph).text) := by
  have hne : ¬(doc.paragraphs.isEmpty = true) := by
    intro hh
    rw [List.isEmpty_iff] at hh
    rw [hh] at hj
    simp at hj
  have hcond : ¬((doc.paragraphs.length : Int) ≤ ((j : Nat) : Int)) := by
    omega
  have hmax : ((max 0 ((j : Nat) : Int)).toNat) = j := by omega
  have happly : apply_textarea_field doc fm value
      = (let endN := min doc.paragraphs.length
           (max (j + 1) ((max (((j : Nat) : Int) + 1)
             (fm.endPos.getD ((j : Nat) : Int))).toNat))
         let primary := doc.paragraphs.getD j emptyParagraph
         let newP := if ((Option.none : Option Nat) = Option.none
               ∨ (Option.none : Option Nat) = some 1)
             ∧ pyStrip b ≠ "" ∧ pyStrip b = pyStrip primary.text
           then replace_paragraph_text primary (pyStrip primary.text)
             Option.none Option.none Option.none
           else replace_paragraph_text primary b
             Option.none Option.none Option.none
         let afterDel := deleteDescRange (doc.paragraphs.set j newP) j endN
         { doc with paragraphs :=
             afterDel.take (j + 1) ++ [] ++ afterDel.drop (j + 1) }) := by
    unfold apply_textarea_field
    simp only []
    rw [hmetas]
    simp only [Option.getD_none]
    rw [hstart]
    simp only [Option.getD_some]
    rw [if_neg hne, if_neg hcond, hmax]
    rw [show (if ([] : List ParaMeta).isEmpty = true
        then (Option.none : Option Nat)
        else some ([] : List ParaMeta).length) = Option.none from rfl]
    rw [hone]
    rw [show (([b] : List String).enum) = [(0, b)] from rfl]
    simp only [List.map_cons, List.map_nil]
    rw [paragraph_meta_for_nil]
    rfl
  rw [happly]
  simp only []
  rw [if_pos (show (True ∨ (Option.none : Option Nat) = some 1)
      ∧ pyStrip b ≠ ""
      ∧ pyStrip b = pyStrip (doc.paragraphs.getD j emptyParagraph).text
    from ⟨Or.inl trivial, hbne, hbeq⟩)]
  simp only [List.append_nil]
  rw [List.take_append_drop]
  have hlenset : j < (doc.paragraphs.set j
      (replace_paragraph_text (doc.paragraphs.getD j emptyParagraph)
        (pyStrip (doc.paragraphs.getD j emptyParagraph).text)
        Option.none Option.none Option.none)).length := by
    rw [List.length_set]; exact hj
  have htake := deleteDescRange_take (doc.paragraphs.set j
    (replace_paragraph_text (doc.paragraphs.getD j emptyParagraph)
      (pyStrip (doc.paragraphs.getD j emptyParagraph).text)
      Option.none Option.none Option.none)) j
    (min doc.paragraphs.length
      (max (j + 1) ((max (((j : Nat) : Int) + 1)
        (fm.endPos.getD ((j : Nat) : Int))).toNat)))
  have hlendel : j < (deleteDescRange (doc.paragraphs.set j
      (replace_paragraph_text (doc.paragraphs.getD j emptyParagraph)
        (pyStrip (doc.paragraphs.getD j emptyParagraph).text)
        Option.none Option.none Option.none)) j
      (min doc.paragraphs.length
        (max (j + 1) ((max (((j : Nat) : Int) + 1)
          (fm.endPos.getD ((j : Nat) : Int))).toNat)))).length := by
    have h1 := congrArg List.length htake
    rw [List.length_take, List.length_take] at h1
    omega
  have hgd := getD_of_take_eq _ _ j emptyParagraph htake hlendel hlenset
  rw [hgd]
  have hset : (doc.paragraphs.set j
      (replace_paragraph_text (doc.paragraphs.getD j emptyParagraph)
        (pyStrip (doc.paragraphs.getD j emptyParagraph).text)
        Option.none Option.none Option.none)).getD j emptyParagraph
      = replace_paragraph_text (doc.paragraphs.getD j emptyParagraph)
          (pyStrip (doc.paragraphs.getD j emptyParagraph).text)
          Option.none Option.none Option.none := by
    rw [List.getD_eq_getElem _ _ hlenset]
    exact List.getElem_set_self _
  rw [hset]
  exact ⟨rfl, replace_paragraph_text_text _ _ _ _ _⟩

/-- Concrete instance of the amended C5: paragraph 0 (runs "Hel","lo") with
a value that strips to the same text is rebuilt from its stripped text. -/
theorem apply_textarea_field_skip_rewrites_witness :
    (let doc : Doc :=
       { paragraphs := [{ runs := [{ text := "Hel" }, { text := "lo" }] }] }
     (apply_textarea_field doc { start := some 0, endPos := some 1 }
         (PyVal.str "Hello")).paragraphs.getD 0 emptyParagraph
       = replace_paragraph_text (doc.paragraphs.getD 0 emptyParagraph)
           (pyStrip (doc.paragraphs.getD 0 emptyParagraph).text)
           Option.none Option.none Option.none) := by
  exact (apply_textarea_field_skip_rewrites _ _ _ 0 "Hello" rfl rfl
    (by decide) (by decide) (by decide) (by decide)).1

/-- C5 counterexample: the skip conditions hold (one block, stripped-equal
to the original first paragraph), yet the paragraph element changes — the
two original runs are replaced by a rebuilt run list. -/
theorem apply_textarea_field_skip_counterexample :
    (let doc : Doc :=
       { paragraphs := [{ runs := [{ text := "Hel" }, { text := "lo" }] }] }
     split_paragraph_blocks "Hello" Option.none = ["Hello"]
       ∧ pyStrip "Hello"
           = pyStrip (doc.paragraphs.getD 0 emptyParagraph).text
       ∧ (apply_textarea_field doc { start := some 0, endPos := some 1 }
             (PyVal.str "Hello")).paragraphs.getD 0 emptyParagraph
           ≠ doc.paragraphs.getD 0 emptyParagraph) := by
  exact ⟨by decide, by decide, by decide⟩

/-! ## C8: placeholder substitution -/

theorem ph_char_not_space (c : Char) (h : isPlaceholderChar c = true) :
    pySpace c = false := by
  by_contra hb
  rw [Bool.not_eq_false] at hb
  have hc : c = ' ' ∨ c = '\t' ∨ c = '\x0d' ∨ c = '\n' := by
    unfold pySpace Char.isWhitespace at hb
    simp only [Bool.or_eq_true, decide_eq_true_eq] at hb
    tauto
  rcases hc with h1 | h1 | h1 | h1 <;> rw [h1] at h <;> revert h <;> decide

theorem ph_char_ne_lbrace (c : Char) (h : isPlaceholderChar c = true) :
    c ≠ '{' := by
  intro he
  rw [he] at h
  revert h
  decide

theorem ph_char_ne_rbrace (c : Char) (h : isPlaceholderChar c = true) :
    c ≠ '}' := by
  intro he
  rw [he] at h
  revert h
  decide

theorem space_ne_lbrace (c : Char) (h : pySpace c = true) : c ≠ '{' := by
  intro he
  rw [he] at h
  revert h
  decide

theorem dropWhile_append_spaces (l1 l2 : List Char)
    (h : ∀ c ∈ l1, pySpace c = true) :
    (l1 ++ l2).dropWhile pySpace = l2.dropWhile pySpace := by
  induction l1 with
  | nil => rfl
  | cons c l ih =>
    rw [List.cons_append, List.dropWhile_cons]
    rw [h c (List.mem_cons_self _ _)]
    exact ih (fun a ha => h a (List.mem_cons_of_mem _ ha))

theorem dropWhile_nospace (c : Char) (l : List Char)
    (h : pySpace c = false) :
    (c :: l).dropWhile pySpace = c :: l := by
  simp [List.dropWhile_cons, h]

theorem isPrefixOf_append_self (l t : List Char) :
    l.isPrefixOf (l ++ t) = true := by
  induction l with
  | nil => cases t <;> rfl
  | cons a as ih =>
    rw [List.cons_append]
    show (a == a && as.isPrefixOf (as ++ t)) = true
    rw [beq_self_eq_true, ih]
    rfl

theorem phTryMatch_hit (key ws1 ws2 t : List Char)
    (hkey : key ≠ []) (hkeyc : ∀ c ∈ key, isPlaceholderChar c = true)
    (hw1 : ∀ c ∈ ws1, pySpace c = true)
    (hw2 : ∀ c ∈ ws2, pySpace c = true) :
    phTryMatch key (ws1 ++ (key ++ (ws2 ++ '\x7d' :: '\x7d' :: t)))
      = some t := by
  unfold phTryMatch
  simp only []
  have h1 : (ws1 ++ (key ++ (ws2 ++ '\x7d' :: '\x7d' :: t))).dropWhile
        pySpace
      = key ++ (ws2 ++ '\x7d' :: '\x7d' :: t) := by
    rw [dropWhile_append_spaces _ _ hw1]
    cases key with
    | nil => exact absurd rfl hkey
    | cons a as =>
      rw [List.cons_append]
      exact dropWhile_nospace _ _
        (ph_char_not_space a (hkeyc a (List.mem_cons_self _ _)))
  rw [h1]
  rw [isPrefixOf_append_self key (ws2 ++ '\x7d' :: '\x7d' :: t)]
  rw [if_pos rfl]
  rw [List.drop_left key (ws2 ++ '\x7d' :: '\x7d' :: t)]
  rw [dropWhile_append_spaces _ _ hw2]
  rw [dropWhile_nospace _ _ (show pySpace '\x7d' = false from by decide)]
  rfl

theorem prefix_cases (rest0 : List Char) (c0 : Char) (r0 : List Char)
    (hrest : rest0 = c0 :: r0) (hc0 : isPlaceholderChar c0 = false) :
    ∀ key k : List Char, (∀ c ∈ key, isPlaceholderChar c = true) →
      (∀ c ∈ k, isPlaceholderChar c = true) → key ≠ [] → key ≠ k →
      key.isPrefixOf (k ++ rest0) = false
        ∨ ∃ c rest, (k ++ rest0).drop key.length = c :: rest
            ∧ isPlaceholderChar c = true := by
  intro key
  induction key with
  | nil => intro k _ _ hne _; exact absurd rfl hne
  | cons a key ih =>
    intro k hkeyc hkc hne hneq
    cases k with
    | nil =>
      left
      rw [List.nil_append, hrest]
      show (a == c0 && key.isPrefixOf r0) = false
      have hab : (a == c0) = false := by
        rw [beq_eq_false_iff_ne]
        intro he
        rw [← he] at hc0
        rw [hkeyc a (List.mem_cons_self _ _)] at hc0
        simp at hc0
      rw [hab]
      rfl
    | cons b k2 =>
      by_cases hab : a = b
      · cases key with
        | nil =>
          right
          cases k2 with
          | nil => exact absurd (by rw [hab]) hneq
          | cons c k3 =>
            refine ⟨c, k3 ++ rest0, ?_, hkc c (List.mem_cons_of_mem _
              (List.mem_cons_self _ _))⟩
            rw [List.cons_append, List.length_cons, List.length_nil,
              List.drop_succ_cons, List.drop_zero, List.cons_append]
        | cons a2 key2 =>
          have hneq2 : a2 :: key2 ≠ k2 := by
            intro he
            rw [hab, he] at hneq
            exact hneq rfl
          rcases ih k2 (fun c hc => hkeyc c (List.mem_cons_of_mem _ hc))
            (fun c hc => hkc c (List.mem_cons_of_mem _ hc))
            (List.cons_ne_nil _ _) hneq2 with hf | ⟨c, rest, hd, hc⟩
          · left
            rw [List.cons_append]
            show (a == b && (a2 :: key2).isPrefixOf (k2 ++ rest0)) = false
            rw [hf]
            exact Bool.and_false _
          · right
            refine ⟨c, rest, ?_, hc⟩
            rw [List.cons_append, List.length_cons, List.drop_succ_cons]
            exact hd
      · left
        rw [List.cons_append]
        show (a == b && key.isPrefixOf (k2 ++ rest0)) = false
        rw [beq_eq_false_iff_ne.mpr hab]
        rfl

theorem phTryMatch_miss (key k ws1 ws2 t : List Char)
    (hkeyne : key ≠ []) (hkeyc : ∀ c ∈ key, isPlaceholderChar c = true)
    (hkne : k ≠ []) (hkc : ∀ c ∈ k, isPlaceholderChar c = true)
    (hw1 : ∀ c ∈ ws1, pySpace c = true)
    (hw2 : ∀ c ∈ ws2, pySpace c = true) (hne : key ≠ k) :
    phTryMatch key (ws1 ++ (k ++ (ws2 ++ '\x7d' :: '\x7d' :: t)))
      = Option.none := by
  unfold phTryMatch
  simp only []
  have h1 : (ws1 ++ (k ++ (ws2 ++ '\x7d' :: '\x7d' :: t))).dropWhile pySpace
      = k ++ (ws2 ++ '\x7d' :: '\x7d' :: t) := by
    rw [dropWhile_append_spaces _ _ hw1]
    cases k with
    | nil => exact absurd rfl hkne
    | cons a as =>
      rw [List.cons_append]
      exact dropWhile_nospace _ _
        (ph_char_not_space a (hkc a (List.mem_cons_self _ _)))
  rw [h1]
  have hrest : ∃ c0 r0, ws2 ++ '\x7d' :: '\x7d' :: t = c0 :: r0
      ∧ isPlaceholderChar c0 = false := by
    cases ws2 with
    | nil => exact ⟨'\x7d', '\x7d' :: t, rfl, by decide⟩
    | cons w ws =>
      refine ⟨w, ws ++ '\x7d' :: '\x7d' :: t, List.cons_append _ _ _, ?_⟩
      by_contra hb
      rw [Bool.not_eq_false] at hb
      have h2 := ph_char_not_space w hb
      rw [hw2 w (List.mem_cons_self _ _)] at h2
      simp at h2
  obtain ⟨c0, r0, he0, hc0⟩ := hrest
  rcases prefix_cases (ws2 ++ '\x7d' :: '\x7d' :: t) c0 r0 he0 hc0 key k
      hkeyc hkc hkeyne hne with hf | ⟨c, rest, hd, hc⟩
  · rw [hf]
    rfl
  · by_cases hp : key.isPrefixOf (k ++ (ws2 ++ '\x7d' :: '\x7d' :: t))
        = true
    · rw [if_pos hp, hd,
        dropWhile_nospace _ _ (ph_char_not_space c hc)]
      split
      · rename_i r heq
        injection heq with hh1 hh2
        exact absurd hh1 (ph_char_ne_rbrace c hc)
      · rfl
    · rw [if_neg hp]

theorem phSubstOne_lit (key repl : List Char) :
    ∀ (s t : List Char) (f : Nat), (∀ c ∈ s, c ≠ '\x7b') →
      phSubstOne key repl (s.length + f) (s ++ t)
        = s ++ phSubstOne key repl f t := by
  intro s
  induction s with
  | nil => intro t f _; simp
  | cons c s ih =>
    intro t f h
    rw [show (c :: s).length + f = (s.length + f) + 1 from by
      rw [List.length_cons]; omega]
    rw [List.cons_append]
    simp only [phSubstOne]
    rw [if_neg (h c (List.mem_cons_self _ _))]
    rw [ih t f (fun a ha => h a (List.mem_cons_of_mem _ ha))]
    rfl

theorem phSubstOne_hit (key repl ws1 ws2 : List Char)
    (hkey : key ≠ []) (hkeyc : ∀ c ∈ key, isPlaceholderChar c = true)
    (hw1 : ∀ c ∈ ws1, pySpace c = true)
    (hw2 : ∀ c ∈ ws2, pySpace c = true) (t : List Char) (f : Nat) :
    phSubstOne key repl (f + 1)
        ('\x7b' :: '\x7b' :: (ws1 ++ (key ++ (ws2 ++ '\x7d' :: '\x7d' :: t))))
      = repl ++ phSubstOne key repl f t := by
  rw [show phSubstOne key repl (f + 1)
        ('\x7b' :: '\x7b' :: (ws1 ++ (key ++ (ws2 ++ '\x7d' :: '\x7d' :: t))))
      = (match phTryMatch key (ws1 ++ (key ++ (ws2 ++ '\x7d' :: '\x7d' :: t))) with
         | some suffix => repl ++ phSubstOne key repl f suffix
         | Option.none => '\x7b' :: phSubstOne key repl f
             ('\x7b' :: (ws1 ++ (key ++ (ws2 ++ '\x7d' :: '\x7d' :: t)))))
      from rfl]
  rw [phTryMatch_hit key ws1 ws2 t hkey hkeyc hw1 hw2]

theorem phSubstOne_miss (key repl k ws1 ws2 : List Char)
    (hkeyne : key ≠ []) (hkeyc : ∀ c ∈ key, isPlaceholderChar c = true)
    (hkne : k ≠ []) (hkc : ∀ c ∈ k, isPlaceholderChar c = true)
    (hw1 : ∀ c ∈ ws1, pySpace c = true)
    (hw2 : ∀ c ∈ ws2, pySpace c = true) (hne : key ≠ k) (t : List Char)
    (f : Nat) :
    phSubstOne key repl ((2 + ws1.length + k.length + ws2.length + 2) + f)
        ('\x7b' :: '\x7b' :: (ws1 ++ (k ++ (ws2 ++ '\x7d' :: '\x7d' :: t))))
      = '\x7b' :: '\x7b' :: (ws1 ++ (k ++ (ws2 ++ '\x7d' :: '\x7d' ::
          phSubstOne key repl f t))) := by
  have hall : ∀ c ∈ ws1 ++ (k ++ (ws2 ++ ['\x7d', '\x7d'])), c ≠ '\x7b' := by
    intro c hcm
    simp only [List.mem_append, List.mem_cons, List.mem_singleton] at hcm
    rcases hcm with h1 | h1 | h1 | h1 | h1 | h1
    · exact space_ne_lbrace c (hw1 c h1)
    · exact ph_char_ne_lbrace c (hkc c h1)
    · exact space_ne_lbrace c (hw2 c h1)
    · rw [h1]; decide
    · rw [h1]; decide
    · cases h1
  have hsplit : (ws1 ++ (k ++ (ws2 ++ ['\x7d', '\x7d']))) ++ t
      = ws1 ++ (k ++ (ws2 ++ '\x7d' :: '\x7d' :: t)) := by
    simp [List.append_assoc]
  have hbody : ∃ c2 rest2,
      ws1 ++ (k ++ (ws2 ++ '\x7d' :: '\x7d' :: t)) = c2 :: rest2
        ∧ c2 ≠ '\x7b' := by
    cases ws1 with
    | nil =>
      cases k with
      | nil => exact absurd rfl hkne
      | cons a as =>
        refine ⟨a, as ++ (ws2 ++ '\x7d' :: '\x7d' :: t), ?_,
          ph_char_ne_lbrace a (hkc a (List.mem_cons_self _ _))⟩
        rw [List.nil_append, List.cons_append]
    | cons w ws =>
      exact ⟨w, ws ++ (k ++ (ws2 ++ '\x7d' :: '\x7d' :: t)),
        List.cons_append _ _ _,
        space_ne_lbrace w (hw1 w (List.mem_cons_self _ _))⟩
  obtain ⟨c2, rest2, he, hc2⟩ := hbody
  rw [show (2 + ws1.length + k.length + ws2.length + 2) + f
      = ((1 + ws1.length + k.length + ws2.length + 2) + f) + 1 from by omega]
  rw [show phSubstOne key repl
        (((1 + ws1.length + k.length + ws2.length + 2) + f) + 1)
        ('\x7b' :: '\x7b' :: (ws1 ++ (k ++ (ws2 ++ '\x7d' :: '\x7d' :: t))))
      = (match phTryMatch key (ws1 ++ (k ++ (ws2 ++ '\x7d' :: '\x7d' :: t))) with
         | some suffix => repl ++ phSubstOne key repl
             ((1 + ws1.length + k.length + ws2.length + 2) + f) suffix
         | Option.none => '\x7b' :: phSubstOne key repl
             ((1 + ws1.length + k.length + ws2.length + 2) + f)
             ('\x7b' :: (ws1 ++ (k ++ (ws2 ++ '\x7d' :: '\x7d' :: t)))))
      from rfl]
  rw [phTryMatch_miss key k ws1 ws2 t hkeyne hkeyc hkne hkc hw1 hw2 hne]
  show '\x7b' :: phSubstOne key repl
      ((1 + ws1.length + k.length + ws2.length + 2) + f)
      ('\x7b' :: (ws1 ++ (k ++ (ws2 ++ '\x7d' :: '\x7d' :: t)))) = _
  rw [he]
  rw [show (1 + ws1.length + k.length + ws2.length + 2) + f
      = ((ws1.length + k.length + ws2.length + 2) + f) + 1 from by omega]
  rw [show phSubstOne key repl
        (((ws1.length + k.length + ws2.length + 2) + f) + 1)
        ('\x7b' :: c2 :: rest2)
      = (if c2 = '\x7b' then
          (match phTryMatch key rest2 with
           | some suffix => repl ++ phSubstOne key repl
               ((ws1.length + k.length + ws2.length + 2) + f) suffix
           | Option.none => '\x7b' :: phSubstOne key repl
               ((ws1.length + k.length + ws2.length + 2) + f) (c2 :: rest2))
         else '\x7b' :: phSubstOne key repl
           ((ws1.length + k.length + ws2.length + 2) + f) (c2 :: rest2))
      from rfl]
  rw [if_neg hc2]
  rw [← he, ← hsplit]
  rw [show (ws1.length + k.length + ws2.length + 2) + f
      = (ws1 ++ (k ++ (ws2 ++ ['\x7d', '\x7d']))).length + f from by
        simp [List.length_append]; omega]
  rw [phSubstOne_lit key repl _ t f hall]
  simp [List.append_assoc]

theorem renderPieces_cons (pc : Piece) (ps : List Piece) :
    (renderPieces (pc :: ps)).data
      = (Piece.render pc).data ++ (renderPieces ps).data := by
  unfold renderPieces
  rw [List.map_cons, string_join_cons, String.data_append]

theorem render_ph_append (ws1 k ws2 : String) (t : List Char) :
    (Piece.ph ws1 k ws2).render.data ++ t
      = '\x7b' :: '\x7b' :: (ws1.data ++ (k.data ++ (ws2.data
          ++ '\x7d' :: '\x7d' :: t))) := by
  show ('\x7b' :: '\x7b' :: (ws1.data ++ k.data ++ ws2.data
      ++ ['\x7d', '\x7d'])) ++ t = _
  simp [List.append_assoc]

theorem substOnePieces_cons_lit (key repl s : String) (ps : List Piece) :
    substOnePieces key repl (Piece.lit s :: ps)
      = Piece.lit s :: substOnePieces key repl ps := rfl

theorem substOnePieces_cons_ph (key repl ws1 k ws2 : String)
    (ps : List Piece) :
    substOnePieces key repl (Piece.ph ws1 k ws2 :: ps)
      = (if k = key then Piece.lit repl else Piece.ph ws1 k ws2)
          :: substOnePieces key repl ps := rfl

theorem phSubstOne_pieces (key repl : List Char)
    (hkeyne : key ≠ []) (hkeyc : ∀ c ∈ key, isPlaceholderChar c = true) :
    ∀ (ps : List Piece) (f : Nat), (∀ pc ∈ ps, pc.wf = true) →
      (renderPieces ps).data.length ≤ f →
      phSubstOne key repl f (renderPieces ps).data
        = (renderPieces (substOnePieces (String.mk key) (String.mk repl)
            ps)).data := by
  intro ps
  induction ps with
  | nil => intro f _ _; cases f <;> rfl
  | cons pc ps ih =>
    intro f hwf hf
    have hlen := congrArg List.length (renderPieces_cons pc ps)
    rw [List.length_append] at hlen
    rw [hlen] at hf
    rw [renderPieces_cons pc ps]
    have hwft : ∀ q ∈ ps, q.wf = true :=
      fun q hq => hwf q (List.mem_cons_of_mem _ hq)
    cases pc with
    | lit str =>
      have hwfpc := hwf _ (List.mem_cons_self _ _)
      simp only [Piece.wf, List.all_eq_true, decide_eq_true_eq] at hwfpc
      have hstr : (Piece.lit str).render.data = str.data := rfl
      rw [hstr] at hf
      rw [hstr]
      rw [show f = str.data.length + (f - str.data.length) from by omega]
      rw [phSubstOne_lit key repl str.data _ _ hwfpc]
      rw [ih (f - str.data.length) hwft (by omega)]
      rw [substOnePieces_cons_lit, renderPieces_cons]
      rfl
    | ph ws1 k ws2 =>
      have hwfpc := hwf _ (List.mem_cons_self _ _)
      simp only [Piece.wf, Bool.and_eq_true, List.all_eq_true,
        decide_eq_true_eq] at hwfpc
      obtain ⟨⟨⟨hw1, hw2⟩, hkne⟩, hkc⟩ := hwfpc
      have hkd : k.data ≠ [] := by
        intro h
        apply hkne
        cases k
        exact congrArg String.mk h
      have hrl : (Piece.ph ws1 k ws2).render.data.length
          = ws1.data.length + k.data.length + ws2.data.length + 4 := by
        show ('\x7b' :: '\x7b' :: (ws1.data ++ k.data ++ ws2.data
            ++ ['\x7d', '\x7d'])).length = _
        simp [List.length_append]
        omega
      rw [hrl] at hf
      by_cases hkk : k = String.mk key
      · have hkd2 : k.data = key := by rw [hkk]
        rw [render_ph_append ws1 k ws2 (renderPieces ps).data, hkd2]
        rw [show f = ((f - 1) + 1) from by omega]
        rw [phSubstOne_hit key repl ws1.data ws2.data hkeyne hkeyc hw1 hw2
          (renderPieces ps).data (f - 1)]
        rw [ih (f - 1) hwft (by omega)]
        rw [substOnePieces_cons_ph, renderPieces_cons, if_pos hkk]
        rfl
      · have hne2 : key ≠ k.data := by
          intro h
          apply hkk
          cases k
          exact congrArg String.mk h.symm
        rw [render_ph_append ws1 k ws2 (renderPieces ps).data]
        rw [show f = (2 + ws1.data.length + k.data.length + ws2.data.length
            + 2) + (f - (4 + ws1.data.length + k.data.length
            + ws2.data.length)) from by omega]
        rw [phSubstOne_miss key repl k.data ws1.data ws2.data hkeyne hkeyc
          hkd hkc hw1 hw2 hne2 (renderPieces ps).data _]
        rw [ih _ hwft (by omega)]
        rw [substOnePieces_cons_ph, renderPieces_cons, if_neg hkk]
        rw [← render_ph_append ws1 k ws2]

theorem substOnePieces_wf (key repl : String)
    (hrepl : ∀ c ∈ repl.data, c ≠ '\x7b') (ps : List Piece)
    (hwf : ∀ pc ∈ ps, pc.wf = true) :
    ∀ pc ∈ substOnePieces key repl ps, pc.wf = true := by
  intro pc hpc
  unfold substOnePieces at hpc
  rw [List.mem_map] at hpc
  obtain ⟨q, hq, he⟩ := hpc
  cases q with
  | lit s2 => rw [← he]; exact hwf _ hq
  | ph w1 kk w2 =>
    rw [← he]
    show Piece.wf (if kk = key then Piece.lit repl else Piece.ph w1 kk w2)
      = true
    by_cases hk : kk = key
    · rw [if_pos hk]
      simp only [Piece.wf, List.all_eq_true, decide_eq_true_eq]
      exact hrepl
    · rw [if_neg hk]
      exact hwf _ hq

theorem substPiecesSpec_nil : ∀ ps : List Piece,
    substPiecesSpec [] ps = ps := by
  intro ps
  induction ps with
  | nil => rfl
  | cons pc ps ih =>
    unfold substPiecesSpec
    rw [List.map_cons]
    unfold substPiecesSpec at ih
    rw [ih]
    cases pc with
    | lit s => rfl
    | ph w1 k w2 => rfl

theorem alGet_cons {κ α : Type} [DecidableEq κ] (e : κ × α)
    (l : List (κ × α)) (k : κ) :
    alGet (e :: l) k = if e.1 = k then some e.2 else alGet l k := by
  unfold alGet
  by_cases h : e.1 = k
  · rw [if_pos h]
    rw [List.find?_cons_of_pos _ (by simp [h])]
    rfl
  · rw [if_neg h]
    rw [List.find?_cons_of_neg _ (by simp [h])]

theorem alGet_absent {κ α : Type} [DecidableEq κ] (l : List (κ × α))
    (k : κ) (h : ∀ e ∈ l, e.1 ≠ k) : alGet l k = Option.none := by
  induction l with
  | nil => rfl
  | cons e l ih =>
    rw [alGet_cons, if_neg (h e (List.mem_cons_self _ _))]
    exact ih (fun a ha => h a (List.mem_cons_of_mem _ ha))

theorem substPiecesSpec_cons_structured (kv : String × PyVal)
    (data : List (String × PyVal)) (ps : List Piece)
    (hsc : kv.2.isStructured = true) (habs : ∀ e ∈ data, e.1 ≠ kv.1) :
    substPiecesSpec (kv :: data) ps = substPiecesSpec data ps := by
  unfold substPiecesSpec
  refine List.map_congr_left ?_
  intro pc _
  cases pc with
  | lit s => rfl
  | ph w1 k w2 =>
    show (match alGet (kv :: data) k with
      | some v => if v.isStructured then Piece.ph w1 k w2
          else Piece.lit (if v.isNone then "" else v.pyStr)
      | Option.none => Piece.ph w1 k w2)
      = (match alGet data k with
      | some v => if v.isStructured then Piece.ph w1 k w2
          else Piece.lit (if v.isNone then "" else v.pyStr)
      | Option.none => Piece.ph w1 k w2)
    rw [alGet_cons]
    by_cases hk : kv.1 = k
    · rw [if_pos hk]
      rw [show (match some kv.2 with
          | some v => if v.isStructured then Piece.ph w1 k w2
              else Piece.lit (if v.isNone then "" else v.pyStr)
          | Option.none => Piece.ph w1 k w2)
        = if kv.2.isStructured then Piece.ph w1 k w2
            else Piece.lit (if kv.2.isNone then "" else kv.2.pyStr) from rfl]
      rw [if_pos hsc]
      rw [show alGet data k = Option.none from
        alGet_absent data k (fun e he hek => habs e he (by rw [hek, hk]))]
    · rw [if_neg hk]

theorem substPiecesSpec_step (kv : String × PyVal)
    (data : List (String × PyVal)) (ps : List Piece)
    (hsc : kv.2.isStructured = false) :
    substPiecesSpec data (substOnePieces kv.1
        (if kv.2.isNone then "" else kv.2.pyStr) ps)
      = substPiecesSpec (kv :: data) ps := by
  unfold substPiecesSpec substOnePieces
  rw [List.map_map]
  refine List.map_congr_left ?_
  intro pc _
  cases pc with
  | lit s => rfl
  | ph w1 k w2 =>
    show (match (if k = kv.1
        then Piece.lit (if kv.2.isNone then "" else kv.2.pyStr)
        else Piece.ph w1 k w2) with
      | Piece.lit s => Piece.lit s
      | Piece.ph ws1 key ws2 =>
        match alGet data key with
        | some v => if v.isStructured then Piece.ph ws1 key ws2
            else Piece.lit (if v.isNone then "" else v.pyStr)
        | Option.none => Piece.ph ws1 key ws2)
      = (match alGet (kv :: data) k with
      | some v => if v.isStructured then Piece.ph w1 k w2
          else Piece.lit (if v.isNone then "" else v.pyStr)
      | Option.none => Piece.ph w1 k w2)
    rw [alGet_cons]
    by_cases hk : k = kv.1
    · rw [if_pos hk, if_pos hk.symm]
      rw [show (match some kv.2 with
          | some v => if v.isStructured then Piece.ph w1 k w2
              else Piece.lit (if v.isNone then "" else v.pyStr)
          | Option.none => Piece.ph w1 k w2)
        = if kv.2.isStructured then Piece.ph w1 k w2
            else Piece.lit (if kv.2.isNone then "" else kv.2.pyStr) from rfl]
      rw [if_neg (show ¬(kv.2.isStructured = true) from by
        rw [hsc]; exact Bool.false_ne_true)]
    · rw [if_neg hk, if_neg (fun hh => hk hh.symm)]

theorem replaceInParagraphText_cons_structured (kv : String × PyVal)
    (data : List (String × PyVal)) (t : String)
    (h : kv.2.isStructured = true) :
    replaceInParagraphText (kv :: data) t
      = replaceInParagraphText data t := by
  unfold replaceInParagraphText
  rw [List.foldl_cons]
  simp only []
  rw [if_pos h]

theorem replaceInParagraphText_cons_scalar (kv : String × PyVal)
    (data : List (String × PyVal)) (t : String)
    (h : kv.2.isStructured = false) :
    replaceInParagraphText (kv :: data) t
      = replaceInParagraphText data (String.mk (phSubstOne kv.1.data
          (if kv.2.isNone then "" else kv.2.pyStr).data t.data.length
          t.data)) := by
  unfold replaceInParagraphText
  rw [List.foldl_cons]
  simp only []
  rw [if_neg (by rw [h]; exact Bool.false_ne_true)]

/-- C8: on a paragraph text made of literal chunks (no stray opening brace)
and placeholders, the inline pass replaces exactly the placeholders whose
key maps to a scalar payload value — by that value's string form (Python
`str`, empty for `None`) — and leaves placeholders with absent keys or
list- or dict-valued keys textually intact. -/
theorem replace_in_paragraph_substitution (data : List (String × PyVal))
    (ps : List Piece)
    (hwf : ∀ pc ∈ ps, pc.wf = true)
    (hdata : substDataWf data = true)
    (hnodup : (data.map Prod.fst).Nodup) :
    replaceInParagraphText data (renderPieces ps)
      = renderPieces (substPiecesSpec data ps) := by
  induction data generalizing ps with
  | nil => rw [substPiecesSpec_nil]; rfl
  | cons kv data ih =>
    unfold substDataWf at hdata
    rw [List.all_cons, Bool.and_eq_true] at hdata
    obtain ⟨hkv, hdata2⟩ := hdata
    simp only [Bool.and_eq_true, Bool.or_eq_true, List.all_eq_true,
      decide_eq_true_eq] at hkv
    obtain ⟨⟨hkne, hkc⟩, hor⟩ := hkv
    rw [List.map_cons, List.nodup_cons] at hnodup
    obtain ⟨hnotmem, hnd2⟩ := hnodup
    have habs : ∀ e ∈ data, e.1 ≠ kv.1 := by
      intro e he heq
      exact hnotmem (by rw [← heq]; exact List.mem_map_of_mem _ he)
    have hkdne : kv.1.data ≠ [] := by
      intro h
      apply hkne
      exact congrArg String.mk h
    cases hsc : kv.2.isStructured with
    | true =>
      rw [replaceInParagraphText_cons_structured kv data _ hsc]
      rw [ih ps hwf hdata2 hnd2]
      rw [substPiecesSpec_cons_structured kv data ps hsc habs]
    | false =>
      have hrepl : ∀ c ∈ (if kv.2.isNone then "" else kv.2.pyStr).data,
          c ≠ '\x7b' := by
        rcases hor with h1 | h1
        · rw [hsc] at h1; exact absurd h1 Bool.false_ne_true
        · exact h1
      rw [replaceInParagraphText_cons_scalar kv data _ hsc]
      have hsub : String.mk (phSubstOne kv.1.data
            (if kv.2.isNone then "" else kv.2.pyStr).data
            (renderPieces ps).data.length (renderPieces ps).data)
          = renderPieces (substOnePieces kv.1
              (if kv.2.isNone then "" else kv.2.pyStr) ps) :=
        congrArg String.mk (phSubstOne_pieces kv.1.data
          (if kv.2.isNone then "" else kv.2.pyStr).data hkdne hkc ps
          (renderPieces ps).data.length hwf (Nat.le_refl _))
      rw [hsub]
      rw [ih (substOnePieces kv.1 (if kv.2.isNone then "" else kv.2.pyStr) ps)
        (substOnePieces_wf _ _ hrepl ps hwf) hdata2 hnd2]
      rw [substPiecesSpec_step kv data ps hsc]

/-- Concrete instance of C8: `\x7b\x7bname\x7d\x7d` and `\x7b\x7b age \x7d\x7d`
are replaced from scalar entries, while a missing key and a list-valued key
survive verbatim. -/
theorem replace_in_paragraph_substitution_witness :
    replaceInParagraphText
        [("name", PyVal.str "Ada"), ("age", PyVal.int 36),
         ("items", PyVal.list [PyVal.str "a"])]
        (renderPieces
          [Piece.lit "Hello ", Piece.ph "" "name" "", Piece.lit ", age ",
           Piece.ph " " "age" " ", Piece.lit " x ",
           Piece.ph "" "missing" "", Piece.ph "" "items" ""])
      = renderPieces (substPiecesSpec
          [("name", PyVal.str "Ada"), ("age", PyVal.int 36),
           ("items", PyVal.list [PyVal.str "a"])]
          [Piece.lit "Hello ", Piece.ph "" "name" "", Piece.lit ", age ",
           Piece.ph " " "age" " ", Piece.lit " x ",
           Piece.ph "" "missing" "", Piece.ph "" "items" ""]) :=
  replace_in_paragraph_substitution
    [("name", PyVal.str "Ada"), ("age", PyVal.int 36),
     ("items", PyVal.list [PyVal.str "a"])]
    [Piece.lit "Hello ", Piece.ph "" "name" "", Piece.lit ", age ",
     Piece.ph " " "age" " ", Piece.lit " x ",
     Piece.ph "" "missing" "", Piece.ph "" "items" ""]
    (by decide) (by decide) (by decide)

end DocProc
